import Mathlib

/-
Verification of the OmniTrax multi-object tracker core (src/tracker.py) against its
natural-language specification.

The embedding below translates `tracker.py` into Lean:
 * coordinates are rationals (`ℚ`); `np.sqrt` is modelled by `Rat.sqrt` (exact on
   perfect squares; every concrete scenario below only takes square roots of
   perfect squares, and no theorem depends on the value of an inexact root);
 * Python exceptions are modelled with `Except`; a raised exception carries the
   tracker state at the moment of the raise, since Python's in-place mutations
   survive the raise;
 * `scipy.optimize.linear_sum_assignment` is external library code; it is modelled
   by its documented contract: a minimum-total-cost one-to-one assignment of all
   rows to distinct columns (here computed by exhaustive minimisation, which is
   executable for the small instances of the concrete scenarios);
 * the Kalman filter lives in `kalman_filter_new.py`, which is not part of the
   sources; it is modelled from the spec (§4.1), see `KalmanFilter` below.  No
   theorem in this file depends on the numeric values the filter produces.
-/

attribute [local semireducible] Rat.add Rat.mul Rat.sub Rat.inv

set_option maxRecDepth 100000

instance {ε α : Type} [DecidableEq ε] [DecidableEq α] : DecidableEq (Except ε α) :=
  fun x y =>
    match x, y with
    | .ok a, .ok b => decidable_of_iff (a = b) (by simp)
    | .error e, .error f => decidable_of_iff (e = f) (by simp)
    | .ok _, .error _ => isFalse (by simp)
    | .error _, .ok _ => isFalse (by simp)

namespace OmniTrax

/-- A 2-D point: the tracker stores detections and predictions as 2×1 column
vectors `[[x],[y]]`; the model flattens them to pairs. -/
abbrev Pt : Type := ℚ × ℚ

/-- Fuel-driven Newton iteration for the integer square root (the fuel makes the
definition structurally recursive, hence evaluable by the kernel). -/
def natSqrtIter (n : ℕ) : ℕ → ℕ → ℕ
  | 0, g => g
  | fuel + 1, g =>
    let next := (g + n / g) / 2
    if next < g then natSqrtIter n fuel next else g

/-- Integer square root (rounds down), structurally recursive. -/
def natSqrt (n : ℕ) : ℕ :=
  if n ≤ 1 then n else natSqrtIter n n (n / 2 + 1)

/-- Integer square root on `ℤ` (mirrors `Int.sqrt`: zero on negatives). -/
def intSqrt (z : ℤ) : ℤ := Int.ofNat (natSqrt z.toNat)

/-- Model of `np.sqrt` on the rational scalars of the embedding.  It mirrors
Mathlib's `Rat.sqrt` (square root of numerator over square root of
denominator), so it is exact whenever the argument is the square of a
rational — which holds in every concrete scenario below — and rounds down
otherwise.  No theorem in this file depends on the value of an inexact root;
only `npSqrt_zero` and `npSqrt_nonneg` are used symbolically. -/
def npSqrt (q : ℚ) : ℚ := mkRat (intSqrt q.num) (natSqrt q.den)

/-- A bounding box: a list of four numbers, each possibly `None`
(`Track.__init__` defaults `bbox` to `[None, None, None, None]`). -/
abbrev BBox : Type := List (Option ℚ)

/-- The Python exceptions the translated code can raise, plus the
`lengthMismatch` error the spec demands for mismatched input lengths (§7) —
the source never produces it, which is what claim C6 is about. -/
inductive PyErr : Type
  | typeError
  | indexError
  | attributeError
  | lengthMismatch
  deriving DecidableEq

/-- Python list subscript `l[i]` with an `int` index: negative indices count
from the end; an out-of-range index raises `IndexError`. -/
def pyGet {α : Type} (l : List α) (i : ℤ) : Except PyErr α :=
  if 0 ≤ i then
    match l.get? i.toNat with
    | some a => .ok a
    | none => .error .indexError
  else
    let k := (-i).toNat
    if k ≤ l.length then
      match l.get? (l.length - k) with
      | some a => .ok a
      | none => .error .indexError
    else .error .indexError

/-- Python `del l[i]` for a nonnegative index: removes the element at `i`, or
raises `IndexError` when `i` is out of range. -/
def pyDelIdx {α : Type} (l : List α) (i : ℕ) : Except PyErr (List α) :=
  if i < l.length then .ok (l.eraseIdx i) else .error .indexError

/-- Modelled from the spec: `kalman_filter_new.KalmanFilter` is imported by
`tracker.py` but is not among the sources.  Per §4.1 the estimator keeps
position and velocity per axis under a constant-acceleration model;
`predict` advances the state one step; `update m flag` incorporates the
measurement when `flag` is set and otherwise coasts.  The model keeps the
position/velocity state and drives the position to the measurement on a
correction (unit gain); the noise parameters shape only the covariance,
which no claim observes, so they are carried but unused. -/
structure KalmanFilter where
  dt : ℚ
  u_x : ℚ
  u_y : ℚ
  std_acc : ℚ
  y_std_meas : ℚ
  x_std_meas : ℚ
  pos : Pt
  vel : Pt
  lastResult : Pt
  deriving DecidableEq

/-- Modelled from the spec (§4.1): construction of the per-track estimator
with `initial_state = prediction` (see `Track.__init__`, line 40-42). -/
def KalmanFilter.init (dt u_x u_y std_acc y_std_meas x_std_meas : ℚ)
    (initial_state : Pt) : KalmanFilter :=
  { dt := dt, u_x := u_x, u_y := u_y, std_acc := std_acc,
    y_std_meas := y_std_meas, x_std_meas := x_std_meas,
    pos := initial_state, vel := (0, 0), lastResult := initial_state }

/-- Modelled from the spec (§4.1): `predict()` advances position by velocity and
velocity by acceleration over one sampling interval. -/
def KalmanFilter.predict (kf : KalmanFilter) : KalmanFilter :=
  { kf with
    pos := (kf.pos.1 + kf.vel.1 * kf.dt + kf.u_x * kf.dt * kf.dt / 2,
            kf.pos.2 + kf.vel.2 * kf.dt + kf.u_y * kf.dt * kf.dt / 2),
    vel := (kf.vel.1 + kf.u_x * kf.dt, kf.vel.2 + kf.u_y * kf.dt) }

/-- Modelled from the spec (§4.1): `update(measurement, flag)` corrects the state
with the measurement when `flag` holds, otherwise coasts; it returns the
current state estimate, which `tracker.py` stores as the track's prediction. -/
def KalmanFilter.update (kf : KalmanFilter) (m : Pt) (flag : Bool) :
    Pt × KalmanFilter :=
  if flag then
    let kf' := { kf with pos := m }
    (kf'.pos, kf')
  else
    (kf.pos, kf)

/-- Translation of `Track` (src/tracker.py lines 10-53): identity, estimator,
current prediction, skip counter, trace, bounding-box trace and class history.
`predicted_class` is `none` exactly when the Python object lacks the attribute
(the attribute is only created when a class is supplied). -/
structure Track where
  track_id : ℤ
  KF : KalmanFilter
  prediction : Pt
  skipped_frames : ℕ
  trace : List Pt
  bbox_trace : List BBox
  predicted_class : Option (List String)
  deriving DecidableEq

/-- Translation of `Track.__init__` (lines 16-53).  Note the source guard
`if any(bbox) is not None:` is always true — `any` returns a `bool`, never
`None` — so `bbox_trace` is unconditionally created with the initial box.
`known_id = -1` means "no prior id": the track takes `trackIdCount`. -/
def Track.init (prediction : Pt) (trackIdCount : ℤ)
    (dt u_x u_y std_acc y_std_meas x_std_meas : ℚ)
    (predicted_class : Option String := none)
    (bbox : BBox := [none, none, none, none])
    (known_id : ℤ := -1) : Track :=
  { track_id := if known_id ≠ -1 then known_id else trackIdCount
    KF := KalmanFilter.init dt u_x u_y std_acc y_std_meas x_std_meas prediction
    prediction := prediction
    skipped_frames := 0
    trace := []
    bbox_trace := [bbox]
    predicted_class := predicted_class.map (fun c => [c]) }

/-- Translation of the `Tracker` object state (lines 62-91): configuration plus
the live track list and the id counter. -/
structure TrackerState where
  dist_thresh : ℚ
  max_frames_to_skip : ℕ
  max_trace_length : ℕ
  tracks : List Track
  trackIdCount : ℤ
  use_kf : Bool
  dt : ℚ
  u_x : ℚ
  u_y : ℚ
  std_acc : ℚ
  y_std_meas : ℚ
  x_std_meas : ℚ
  deriving DecidableEq

/-- A propagating Python exception together with the tracker state at the moment
of the raise (in Python the mutations made before the raise persist). -/
structure PyRaise where
  err : PyErr
  tracks : List Track
  trackIdCount : ℤ
  deriving DecidableEq

/-- Squared Euclidean distance between a track prediction and a detection:
the inner computation of lines 158-160 (`diff[0][0]*diff[0][0] +
diff[1][0]*diff[1][0]`). -/
def dist2 (p q : Pt) : ℚ :=
  (p.1 - q.1) * (p.1 - q.1) + (p.2 - q.2) * (p.2 - q.2)

/-- The N×M cost matrix of lines 150-161: Euclidean distance between each
track's current prediction and each detection (out-of-range indices give a
junk value that no theorem depends on). -/
def costMatrix (tracks : List Track) (dets : List Pt) : ℕ → ℕ → ℚ :=
  fun i j =>
    match tracks.get? i, dets.get? j with
    | some t, some d => npSqrt (dist2 t.prediction d)
    | _, _ => 0

/-- Line 166, `cost = np.c_[cost, np.ones((N, N)) * self.dist_thresh]`: extend
the matrix with "no-match" columns all priced at the distance threshold. -/
def padCost (M : ℕ) (thresh : ℚ) (c : ℕ → ℕ → ℚ) : ℕ → ℕ → ℚ :=
  fun i j => if j < M then c i j else thresh

/-- Total cost of an assignment `a` (row `i0 + p` is paired with column `a[p]`). -/
def totalCostFrom (c : ℕ → ℕ → ℚ) (i0 : ℕ) : List ℕ → ℚ
  | [] => 0
  | j :: rest => c i0 j + totalCostFrom c (i0 + 1) rest

/-- Total cost of an assignment pairing row `p` with column `a[p]`. -/
def totalCost (c : ℕ → ℕ → ℚ) (a : List ℕ) : ℚ := totalCostFrom c 0 a

/-- All one-to-one assignments of `n` rows to distinct columns `< K`,
each given as the list of chosen columns. -/
def injAssignments (K : ℕ) : ℕ → List (List ℕ)
  | 0 => [[]]
  | n + 1 =>
    (injAssignments K n).flatMap fun s =>
      ((List.range K).filter (fun j => !(s.contains j))).map fun j => s ++ [j]

/-- `a` is a one-to-one assignment of `N` rows to distinct columns `< K`. -/
def isMatching (N K : ℕ) (a : List ℕ) : Prop :=
  a.length = N ∧ (∀ j ∈ a, j < K) ∧ a.Nodup

instance (N K : ℕ) (a : List ℕ) : Decidable (isMatching N K a) := by
  unfold isMatching; infer_instance

/-- Select the first candidate assignment of minimal total cost; `bestT` is
always `totalCost c best`, carried so that evaluation stays shallow. -/
def lsaLoop (c : ℕ → ℕ → ℚ) : List ℕ → ℚ → List (List ℕ) → List ℕ
  | best, _, [] => best
  | best, bestT, s :: rest =>
    if totalCost c s < bestT then lsaLoop c s (totalCost c s) rest
    else lsaLoop c best bestT rest

/-- Model of `scipy.optimize.linear_sum_assignment` on an `N×K` cost matrix with
`N ≤ K` (lines 168-177 call it on the padded `N×(M+N)` matrix): by its
documented contract it returns a complete minimum-total-cost one-to-one
assignment of the `N` rows to distinct columns; the model computes one by
exhaustive minimisation.  The Python code copies `col_ind` into `assignment`
entry by entry, so the returned list is exactly the `assignment` vector before
the unassigned-track scan. -/
def linear_sum_assignment (N K : ℕ) (c : ℕ → ℕ → ℚ) : List ℕ :=
  match injAssignments K N with
  | [] => []
  | x :: xs => lsaLoop c x (totalCost c x) xs

/-- Models evaluation of the Python expression `any(bounding_boxes) is not None`
(lines 217 and 250): iterating `None` raises `TypeError`; otherwise `any`
returns a `bool`, which is never `None`, so the test is always true. -/
def anyIsNotNone (xs : Option (List BBox)) : Except PyErr Bool :=
  match xs with
  | none => .error .typeError
  | some _ => .ok true

/-- Lines 139-148: when no tracks exist, create one track per detection.
Python evaluates `predicted_classes[i]` before `bounding_boxes[i]` inside the
`Track(...)` call; subscripting `None` raises `TypeError`, a too-short list
raises `IndexError`, and the tracks already appended persist (carried in the
error value).  The first argument is the running index `i`, the second the
remaining detections. -/
def bootstrapLoop (cfg : TrackerState) (pcs : Option (List String))
    (bbs : Option (List BBox)) :
    ℕ → List Pt → List Track → ℤ → Except (PyErr × List Track × ℤ) (List Track × ℤ)
  | _, [], ts, cnt => .ok (ts, cnt)
  | i, d :: rest, ts, cnt =>
    match (match pcs with
           | none => Except.error PyErr.typeError
           | some cs => pyGet cs i) with
    | .error e => .error (e, ts, cnt)
    | .ok pc =>
      match (match bbs with
             | none => Except.error PyErr.typeError
             | some bs => pyGet bs i) with
      | .error e => .error (e, ts, cnt)
      | .ok bb =>
        bootstrapLoop cfg pcs bbs (i + 1) rest
          (ts ++ [Track.init d cnt cfg.dt cfg.u_x cfg.u_y cfg.std_acc
                    cfg.y_std_meas cfg.x_std_meas (some pc) bb])
          (cnt + 1)

/-- Lines 179-191: scan the assignment vector; a row assigned to a column
`≥ M` (or `-1`) is recorded as unassigned, its entry is reset to `-1` and its
track's skip counter is incremented.  The first argument is the running row
index; tracks and assignment entries are consumed in lockstep (they have equal
length whenever this is called). -/
def classifyLoop (M : ℕ) : ℕ → List Track → List ℤ → List Track × List ℤ × List ℕ
  | _, [], asg => ([], asg, [])
  | _, t :: ts, [] => (t :: ts, [], [])
  | i, t :: ts, a :: asg =>
    let (ts', asg', un') := classifyLoop M (i + 1) ts asg
    if a = -1 ∨ (M : ℤ) ≤ a then
      ({ t with skipped_frames := t.skipped_frames + 1 } :: ts', (-1 : ℤ) :: asg', i :: un')
    else
      (t :: ts', a :: asg', un')

/-- Lines 193-197: indices of tracks whose skip counter exceeds
`max_frames_to_skip`. -/
def delTracksOf (maxSkip : ℕ) (ts : List Track) : List ℕ :=
  (List.range ts.length).filter fun i =>
    match ts.get? i with
    | some t => decide (maxSkip < t.skipped_frames)
    | none => false

/-- Lines 199-206: the deletion pass.  For each recorded index (in ascending
order) the source deletes `self.tracks[id]` — guarded by `id < len(self.tracks)`
— and then `del assignment[id]` unguarded; both `del`s act on the *current*,
already-shrunk lists, which is the positional-shift behaviour claims C1/C7/C8
are about. -/
def deletionLoop :
    List ℕ → List Track → List ℤ → Except (PyErr × List Track × List ℤ) (List Track × List ℤ)
  | [], ts, asg => .ok (ts, asg)
  | i :: rest, ts, asg =>
    if i < ts.length then
      let ts' := ts.eraseIdx i
      match pyDelIdx asg i with
      | .error e => .error (e, ts', asg)
      | .ok asg' => deletionLoop rest ts' asg'
    else
      deletionLoop rest ts asg

/-- Lines 209-212: detections whose index never occurs in the assignment
vector. -/
def unAssignedDetects (M : ℕ) (asg : List ℤ) : List ℕ :=
  (List.range M).filter fun i => !(asg.contains (i : ℤ))

/-- Lines 215-232: start a new track for each unassigned detection.  The guard
`predicted_classes is not None and any(bounding_boxes) is not None`
short-circuits: with classes absent the bare branch runs; with classes present
and boxes `None`, `any(None)` raises `TypeError`.  Each new track appends a
`-1` assignment entry. -/
def birthsLoop (cfg : TrackerState) (dets : List Pt) (pcs : Option (List String))
    (bbs : Option (List BBox)) :
    List ℕ → List Track → List ℤ → ℤ →
    Except (PyErr × List Track × ℤ) (List Track × List ℤ × ℤ)
  | [], ts, asg, cnt => .ok (ts, asg, cnt)
  | d :: rest, ts, asg, cnt =>
    match pcs, bbs with
    | some _, none => .error (.typeError, ts, cnt)
    | some cs, some bs =>
      match pyGet dets (d : ℤ) with
      | .error e => .error (e, ts, cnt)
      | .ok det =>
        match pyGet cs (d : ℤ) with
        | .error e => .error (e, ts, cnt)
        | .ok pc =>
          match pyGet bs (d : ℤ) with
          | .error e => .error (e, ts, cnt)
          | .ok bb =>
            birthsLoop cfg dets pcs bbs rest
              (ts ++ [Track.init det cnt cfg.dt cfg.u_x cfg.u_y cfg.std_acc
                        cfg.y_std_meas cfg.x_std_meas (some pc) bb])
              (asg ++ [(-1 : ℤ)]) (cnt + 1)
    | none, _ =>
      match pyGet dets (d : ℤ) with
      | .error e => .error (e, ts, cnt)
      | .ok det =>
        birthsLoop cfg dets pcs bbs rest
          (ts ++ [Track.init det cnt cfg.dt cfg.u_x cfg.u_y cfg.std_acc
                    cfg.y_std_meas cfg.x_std_meas])
          (asg ++ [(-1 : ℤ)]) (cnt + 1)

/-- Lines 270-273 / 286-289: `for j in range(len(trace) - max_trace_length):
del trace[j]`.  The range is computed once from the length at loop entry and
each `del` acts on the already-shrunk list. -/
def trimLoop (maxLen : ℕ) (tr : List Pt) : Except PyErr (List Pt) :=
  if maxLen < tr.length then
    (List.range (tr.length - maxLen)).foldl
      (fun acc j => match acc with
        | .error e => .error e
        | .ok t => pyDelIdx t j)
      (.ok tr)
  else .ok tr

/-- Lines 245-249: append to the class history.  A matched row (not in
`un_assigned_tracks`) appends `predicted_classes[assignment[i]]`, an unmatched
one appends the empty sentinel; the attribute access fails when the track was
created without classes.  Python resolves the `.append` attribute before
evaluating the subscript argument, so the `AttributeError` fires first. -/
def classStage (pcs : Option (List String)) (unassigned : List ℕ) (asg : List ℤ)
    (i : ℕ) (t : Track) : Except (PyErr × Track) Track :=
  match pcs with
  | none => .ok t
  | some cs =>
    if unassigned.contains i then
      match t.predicted_class with
      | none => .error (.attributeError, t)
      | some pcl => .ok { t with predicted_class := some (pcl ++ [""]) }
    else
      match t.predicted_class with
      | none => .error (.attributeError, t)
      | some pcl =>
        match pyGet cs (asg.getD i (-1)) with
        | .error e => .error (e, t)
        | .ok c => .ok { t with predicted_class := some (pcl ++ [c]) }

/-- Lines 250-255: append to the bounding-box history.  Evaluating
`any(bounding_boxes)` on `None` raises `TypeError`; otherwise a matched row
appends `bounding_boxes[assignment[i]]` and an unmatched one repeats
`bbox_trace[-1]`. -/
def bboxStage (bbs : Option (List BBox)) (unassigned : List ℕ) (asg : List ℤ)
    (i : ℕ) (t : Track) : Except (PyErr × Track) Track :=
  match anyIsNotNone bbs with
  | .error e => .error (e, t)
  | .ok _ =>
    match bbs with
    | none => .error (.typeError, t)
    | some bs =>
      if unassigned.contains i then
        match pyGet t.bbox_trace (-1) with
        | .error e => .error (e, t)
        | .ok lastBox => .ok { t with bbox_trace := t.bbox_trace ++ [lastBox] }
      else
        match pyGet bs (asg.getD i (-1)) with
        | .error e => .error (e, t)
        | .ok bb => .ok { t with bbox_trace := t.bbox_trace ++ [bb] }

/-- Lines 270-275 / 286-291: trim the trace to `max_trace_length` (deleting at
the front) and then append the current prediction. -/
def traceStage (maxLen : ℕ) (t : Track) : Except (PyErr × Track) Track :=
  match trimLoop maxLen t.trace with
  | .error e => .error (e, t)
  | .ok tr => .ok { t with trace := tr ++ [t.prediction] }

/-- Lines 257-276, the Kalman branch before the trace update: always `predict`,
then correct with the matched detection (resetting the skip counter) or coast
when the track has more than one trace point. -/
def kfMotionStage (dets : List Pt) (asg : List ℤ) (i : ℕ) (t : Track) :
    Except (PyErr × Track) Track :=
  let kf1 := t.KF.predict
  if asg.getD i (-1) ≠ -1 then
    match pyGet dets (asg.getD i (-1)) with
    | .error e => .error (e, { t with KF := kf1 })
    | .ok d =>
      let (pred, kf2) := kf1.update d true
      .ok { t with skipped_frames := 0, prediction := pred, KF := kf2 }
  else if 1 < t.trace.length then
    let (pred, kf2) := kf1.update (0, 0) false
    .ok { t with prediction := pred, KF := kf2 }
  else
    .ok { t with KF := kf1 }

/-- Lines 278-284, the pure-matching branch before the trace update: a matched
row resets the skip counter and takes the raw detection as its new position; an
unmatched row keeps the previous state verbatim. -/
def pureMotionStage (dets : List Pt) (asg : List ℤ) (i : ℕ) (t : Track) :
    Except (PyErr × Track) Track :=
  if asg.getD i (-1) ≠ -1 then
    match pyGet dets (asg.getD i (-1)) with
    | .error e => .error (e, t)
    | .ok d => .ok { t with skipped_frames := 0, prediction := d }
  else
    .ok t

/-- Lines 245-291, body of the final per-track loop for row `i`: class history,
bounding-box history, then the Kalman (with `lastResult` bookkeeping, line 276)
or pure-matching state update, each followed by the trace trim-and-append.  An
error carries the partially mutated track. -/
def trackUpdateStep (cfg : TrackerState) (dets : List Pt)
    (pcs : Option (List String)) (bbs : Option (List BBox))
    (unassigned : List ℕ) (asg : List ℤ) (i : ℕ) (t : Track) :
    Except (PyErr × Track) Track :=
  match classStage pcs unassigned asg i t with
  | .error e => .error e
  | .ok t1 =>
    match bboxStage bbs unassigned asg i t1 with
    | .error e => .error e
    | .ok t2 =>
      if cfg.use_kf then
        match kfMotionStage dets asg i t2 with
        | .error e => .error e
        | .ok t3 =>
          match traceStage cfg.max_trace_length t3 with
          | .error e => .error e
          | .ok t4 => .ok { t4 with KF := { t4.KF with lastResult := t4.prediction } }
      else
        match pureMotionStage dets asg i t2 with
        | .error e => .error e
        | .ok t3 => traceStage cfg.max_trace_length t3

/-- Lines 242-291: the final loop over `range(len(self.tracks))`.  A row index
contained in `del_tracks` is skipped (`continue`, line 243-244) — note
`del_tracks` holds pre-deletion indices while the list was already compacted.
The body for row `i` reads and writes only `tracks[i]`, so it is an indexed
traversal; an error carries the partially processed list. -/
def updateLoop (cfg : TrackerState) (dets : List Pt) (pcs : Option (List String))
    (bbs : Option (List BBox)) (unassigned del_tracks : List ℕ) (asg : List ℤ) :
    ℕ → List Track → Except (PyErr × List Track) (List Track)
  | _, [] => .ok []
  | i, t :: rest =>
    if del_tracks.contains i then
      match updateLoop cfg dets pcs bbs unassigned del_tracks asg (i + 1) rest with
      | .error (e, done) => .error (e, t :: done)
      | .ok r => .ok (t :: r)
    else
      match trackUpdateStep cfg dets pcs bbs unassigned asg i t with
      | .error (e, tpart) => .error (e, tpart :: rest)
      | .ok t' =>
        match updateLoop cfg dets pcs bbs unassigned del_tracks asg (i + 1) rest with
        | .error (e, done) => .error (e, t' :: done)
        | .ok r => .ok (t' :: r)

/-- Translation of `Tracker.Update` (lines 122-291).  The stages, in source
order: bootstrap when no tracks exist (139-148), cost matrix (150-161),
padding (163-166), assignment solve (168-177), unassigned-track scan
(179-191), deletion pass (193-206), unassigned detections and births
(208-232), and the final per-track state update (240-291).  A raised Python
exception is returned as a `PyRaise` carrying the mutated state. -/
def Tracker.Update (s : TrackerState) (detections : List Pt)
    (predicted_classes : Option (List String) := none)
    (bounding_boxes : Option (List BBox) := none) : Except PyRaise TrackerState :=
  match (if s.tracks.length = 0 then
           bootstrapLoop s predicted_classes bounding_boxes 0 detections s.tracks s.trackIdCount
         else .ok (s.tracks, s.trackIdCount)) with
  | .error (e, ts, cnt) => .error ⟨e, ts, cnt⟩
  | .ok (ts0, cnt0) =>
    let N := ts0.length
    let M := detections.length
    let asg0 : List ℤ :=
      (linear_sum_assignment N (M + N)
        (padCost M s.dist_thresh (costMatrix ts0 detections))).map Int.ofNat
    let (ts1, asg1, unassigned) := classifyLoop M 0 ts0 asg0
    let del_tracks := delTracksOf s.max_frames_to_skip ts1
    match deletionLoop del_tracks ts1 asg1 with
    | .error (e, ts, _) => .error ⟨e, ts, cnt0⟩
    | .ok (ts2, asg2) =>
      match birthsLoop s detections predicted_classes bounding_boxes
              (unAssignedDetects M asg2) ts2 asg2 cnt0 with
      | .error (e, ts, cnt) => .error ⟨e, ts, cnt⟩
      | .ok (ts3, asg3, cnt3) =>
        match updateLoop s detections predicted_classes bounding_boxes
                unassigned del_tracks asg3 0 ts3 with
        | .error (e, ts) => .error ⟨e, ts, cnt3⟩
        | .ok ts4 => .ok { s with tracks := ts4, trackIdCount := cnt3 }

/-- Translation of `Tracker.initialise_from_prior_state` (lines 93-106): restore
a track from a persisted `[id, x, y, class, bbox]` record, keeping its id, and
increment the id counter. -/
def Tracker.initialise_from_prior_state (s : TrackerState)
    (prior_id : ℤ) (x y : ℚ) (cls : Option String) (bbox : BBox) : TrackerState :=
  let track := Track.init (x, y) s.trackIdCount s.dt s.u_x s.u_y s.std_acc
    s.y_std_meas s.x_std_meas cls bbox prior_id
  { s with trackIdCount := s.trackIdCount + 1, tracks := s.tracks ++ [track] }

/-- Translation of `Tracker.set_trackIdCount` (lines 108-114). -/
def Tracker.set_trackIdCount (s : TrackerState) (latest_trackid : ℤ) : TrackerState :=
  { s with trackIdCount := latest_trackid + 1 }

/-- Translation of `Tracker.clear_tracks` (lines 116-120). -/
def Tracker.clear_tracks (s : TrackerState) : TrackerState :=
  { s with tracks := [] }

/-- Modelled from the spec (§4.3 step 1 and claim C2's reading of it): the
behaviour `Update` would have if the bootstrap branch created one track per
detection and then *returned* — no cost matrix, no assignment solve, no
per-track state update.  Used only to compare against the actual
`Tracker.Update`, which falls through after the bootstrap loop. -/
def specBootstrapUpdate (s : TrackerState) (detections : List Pt)
    (predicted_classes : Option (List String) := none)
    (bounding_boxes : Option (List BBox) := none) : Except PyRaise TrackerState :=
  match bootstrapLoop s predicted_classes bounding_boxes 0 detections s.tracks s.trackIdCount with
  | .error (e, ts, cnt) => .error ⟨e, ts, cnt⟩
  | .ok (ts0, cnt0) => .ok { s with tracks := ts0, trackIdCount := cnt0 }

/-- Unwrap a non-raising update result (all concrete scenario frames below are
checked by `decide`, so a raise would just make the checked equations false). -/
def okOr (e : Except PyRaise TrackerState) (d : TrackerState) : TrackerState :=
  match e with
  | .ok a => a
  | .error _ => d

/-- A concrete all-ones bounding box used by the scenarios. -/
def bx : BBox := [some 1, some 1, some 1, some 1]

/-- Scenario base configuration: distance threshold 5, at most 1 skipped frame,
trace bound 10, ids from 0, Kalman filtering off. -/
def cfgA : TrackerState :=
  { dist_thresh := 5, max_frames_to_skip := 1, max_trace_length := 10,
    tracks := [], trackIdCount := 0, use_kf := false,
    dt := 1, u_x := 0, u_y := 0, std_acc := 5, y_std_meas := 1, x_std_meas := 1 }

/-- Run A, frame 1: bootstrap two tracks at (0,0) and (100,0). -/
def sA1 : TrackerState :=
  okOr (Tracker.Update cfgA [(0, 0), (100, 0)] (some ["a", "a"]) (some [bx, bx])) cfgA

/-- Run A, frame 2: no detections — both tracks miss once (counters 1). -/
def sA2 : TrackerState := okOr (Tracker.Update sA1 [] (some []) (some [])) cfgA

/-- Run D: from the two bootstrapped tracks of run A, one frame with only the
detection at (100,0) — track id 0 misses (counter 1), track id 1 is matched
(counter 0). -/
def sD : TrackerState :=
  okOr (Tracker.Update sA1 [(100, 0)] (some ["a"]) (some [bx])) cfgA

/-- Run B, frame 1: bootstrap three tracks at (0,0), (10,0), (200,0). -/
def sB1 : TrackerState :=
  okOr (Tracker.Update cfgA [(0, 0), (10, 0), (200, 0)]
        (some ["a", "b", "c"]) (some [bx, bx, bx])) cfgA

/-- Run B, frame 2: only the detection at (200,0) — tracks 0 and 1 miss
(counters 1), track 2 is matched (counter 0). -/
def sB2 : TrackerState :=
  okOr (Tracker.Update sB1 [(200, 0)] (some ["c"]) (some [bx])) cfgA

/-- Scenario configuration with `max_trace_length = 1` for the trace-bound
claim. -/
def cfgT : TrackerState := { cfgA with max_trace_length := 1 }

/-- Trace-bound run: three frames with one stationary detection. -/
def sT3 : TrackerState :=
  okOr (Tracker.Update
    (okOr (Tracker.Update
      (okOr (Tracker.Update cfgT [(0, 0)] (some ["a"]) (some [bx])) cfgT)
      [(0, 0)] (some ["a"]) (some [bx])) cfgT)
    [(0, 0)] (some ["a"]) (some [bx])) cfgT

/-- A tracker with one live track whose next miss crosses the deletion
threshold (`max_frames_to_skip = 0`). -/
def sC : TrackerState :=
  { cfgA with
    max_frames_to_skip := 0,
    tracks := [Track.init (0, 0) 0 1 0 0 5 1 1 (some "a") bx],
    trackIdCount := 1 }

/-- Restore scenario: restore a track with persisted id 41 into a fresh tracker
whose id counter is 0 (and allow longer coasting). -/
def sR : TrackerState :=
  Tracker.initialise_from_prior_state { cfgA with max_frames_to_skip := 3 } 41 0 0 (some "c") bx

/-- A concrete 1×2 padded-style cost matrix for the solver witnesses. -/
def cEx : ℕ → ℕ → ℚ := fun _ j => if j = 0 then 3 else 5

theorem lsaLoop_mem (c : ℕ → ℕ → ℚ) (l : List (List ℕ)) :
    ∀ (best : List ℕ) (bt : ℚ), lsaLoop c best bt l = best ∨ lsaLoop c best bt l ∈ l := by
  induction l with
  | nil => intro best bt; exact Or.inl rfl
  | cons s rest ih =>
    intro best bt
    by_cases h : totalCost c s < bt
    · rcases ih s (totalCost c s) with h' | h' <;> simp [lsaLoop, h, h']
    · rcases ih best bt with h' | h' <;> simp [lsaLoop, h, h']

theorem lsaLoop_le (c : ℕ → ℕ → ℚ) (l : List (List ℕ)) :
    ∀ (best : List ℕ),
      totalCost c (lsaLoop c best (totalCost c best) l) ≤ totalCost c best ∧
      ∀ s ∈ l, totalCost c (lsaLoop c best (totalCost c best) l) ≤ totalCost c s := by
  induction l with
  | nil => intro best; exact ⟨le_refl _, by simp⟩
  | cons s rest ih =>
    intro best
    by_cases h : totalCost c s < totalCost c best
    · have hs := ih s
      refine ⟨?_, ?_⟩
      · simpa [lsaLoop, h] using le_trans hs.1 (le_of_lt h)
      · intro r hr
        rcases List.mem_cons.mp hr with rfl | hr'
        · simpa [lsaLoop, h] using hs.1
        · simpa [lsaLoop, h] using hs.2 r hr'
    · have hb := ih best
      refine ⟨?_, ?_⟩
      · simpa [lsaLoop, h] using hb.1
      · intro r hr
        rcases List.mem_cons.mp hr with rfl | hr'
        · have := le_trans hb.1 (not_lt.mp h)
          simpa [lsaLoop, h] using this
        · simpa [lsaLoop, h] using hb.2 r hr'

theorem injAssignments_sound (K : ℕ) :
    ∀ (n : ℕ) (a : List ℕ), a ∈ injAssignments K n → isMatching n K a := by
  intro n
  induction n with
  | zero =>
    intro a ha
    simp only [injAssignments, List.mem_singleton] at ha
    subst ha
    exact ⟨rfl, by simp, List.nodup_nil⟩
  | succ n ih =>
    intro a ha
    simp only [injAssignments, List.mem_flatMap, List.mem_map, List.mem_filter,
      List.mem_range] at ha
    obtain ⟨s, hs, j, ⟨hjK, hjs⟩, rfl⟩ := ha
    obtain ⟨hlen, hbound, hnd⟩ := ih s hs
    have hjmem : j ∉ s := by simpa using hjs
    refine ⟨by simp [hlen], ?_, ?_⟩
    · intro x hx
      rcases List.mem_append.mp hx with hx' | hx'
      · exact hbound x hx'
      · rcases List.mem_singleton.mp hx' with rfl
        exact hjK
    · exact List.Nodup.append hnd (List.nodup_singleton j)
        (fun x hx hx' => hjmem ((List.mem_singleton.mp hx') ▸ hx))

theorem injAssignments_complete (K : ℕ) (a : List ℕ) :
    (∀ j ∈ a, j < K) → a.Nodup → a ∈ injAssignments K a.length := by
  induction a using List.reverseRecOn with
  | nil => intro _ _; simp [injAssignments]
  | append_singleton b j ih =>
    intro hbound hnd
    have hbnd : b.Nodup := (List.nodup_append.mp hnd).1
    have hjb : j ∉ b := by
      intro hmem
      exact ((List.nodup_append.mp hnd).2.2 hmem (List.mem_singleton_self j)).elim
    have hb := ih (fun x hx => hbound x (List.mem_append_left _ hx)) hbnd
    have hjK : j < K := hbound j (List.mem_append_right _ (List.mem_singleton_self j))
    simp only [List.length_append, List.length_singleton, injAssignments,
      List.mem_flatMap, List.mem_map, List.mem_filter, List.mem_range]
    exact ⟨b, hb, j, ⟨hjK, by simp [hjb]⟩, rfl⟩

theorem range_isMatching (N K : ℕ) (h : N ≤ K) : isMatching N K (List.range N) :=
  ⟨List.length_range N, fun j hj => lt_of_lt_of_le (List.mem_range.mp hj) h,
   List.nodup_range N⟩

theorem injAssignments_ne_nil (N K : ℕ) (h : N ≤ K) : injAssignments K N ≠ [] := by
  intro hnil
  have := injAssignments_complete K (List.range N)
    (fun j hj => lt_of_lt_of_le (List.mem_range.mp hj) h) (List.nodup_range N)
  rw [List.length_range] at this
  rw [hnil] at this
  exact (List.not_mem_nil _ this)

theorem isMatching_lsa (N K : ℕ) (c : ℕ → ℕ → ℚ) (h : N ≤ K) :
    isMatching N K (linear_sum_assignment N K c) := by
  have hne := injAssignments_ne_nil N K h
  unfold linear_sum_assignment
  split
  · exact absurd (by assumption) hne
  · next x xs heq =>
    have hmem : lsaLoop c x (totalCost c x) xs ∈ injAssignments K N := by
      rw [heq]
      rcases lsaLoop_mem c xs x (totalCost c x) with h' | h'
      · rw [h']; exact List.mem_cons_self _ _
      · exact List.mem_cons_of_mem _ h'
    exact injAssignments_sound K N _ hmem

theorem lsa_minimal (N K : ℕ) (c : ℕ → ℕ → ℚ) (h : N ≤ K) (a : List ℕ)
    (ha : isMatching N K a) :
    totalCost c (linear_sum_assignment N K c) ≤ totalCost c a := by
  have hne := injAssignments_ne_nil N K h
  have hmem : a ∈ injAssignments K N := by
    have := injAssignments_complete K a (fun j hj => ha.2.1 j hj) ha.2.2
    rwa [ha.1] at this
  unfold linear_sum_assignment
  split
  · exact absurd (by assumption) hne
  · next x xs heq =>
    rw [heq] at hmem
    rcases List.mem_cons.mp hmem with rfl | hmem'
    · exact (lsaLoop_le c xs a).1
    · exact (lsaLoop_le c xs x).2 a hmem'

theorem totalCostFrom_nonneg (c : ℕ → ℕ → ℚ) (h : ∀ i j, 0 ≤ c i j) :
    ∀ (a : List ℕ) (k : ℕ), 0 ≤ totalCostFrom c k a := by
  intro a
  induction a with
  | nil => intro k; simp [totalCostFrom]
  | cons j rest ih =>
    intro k
    have := ih (k + 1)
    have := h k j
    simp only [totalCostFrom]
    linarith

theorem totalCostFrom_eq_zero (c : ℕ → ℕ → ℚ) (h : ∀ i j, 0 ≤ c i j) :
    ∀ (a : List ℕ) (k : ℕ), totalCostFrom c k a = 0 →
      ∀ p j, a.get? p = some j → c (k + p) j = 0 := by
  intro a
  induction a with
  | nil => intro k _ p j hp; simp at hp
  | cons j0 rest ih =>
    intro k hsum p j hp
    have hrest : 0 ≤ totalCostFrom c (k + 1) rest := totalCostFrom_nonneg c h rest (k + 1)
    have hhead : 0 ≤ c k j0 := h k j0
    have hsum' : c k j0 + totalCostFrom c (k + 1) rest = 0 := hsum
    have hz : c k j0 = 0 ∧ totalCostFrom c (k + 1) rest = 0 := by constructor <;> linarith
    match p, hp with
    | 0, hp =>
      have hj : j0 = j := by simpa using hp
      subst hj
      simpa using hz.1
    | Nat.succ q, hp =>
      have hq : rest.get? q = some j := by simpa using hp
      have := ih (k + 1) hz.2 q j hq
      have harith : k + 1 + q = k + (q + 1) := by omega
      rwa [harith] at this

theorem totalCostFrom_set (c : ℕ → ℕ → ℚ) :
    ∀ (a : List ℕ) (k p v j : ℕ), a.get? p = some j →
      totalCostFrom c k (a.set p v) =
        totalCostFrom c k a - c (k + p) j + c (k + p) v := by
  intro a
  induction a with
  | nil => intro k p v j hp; simp at hp
  | cons j0 rest ih =>
    intro k p v j hp
    match p, hp with
    | 0, hp =>
      have : j0 = j := by simpa using hp
      subst this
      simp only [List.set, totalCostFrom, Nat.add_zero]
      ring
    | Nat.succ q, hp =>
      have hq : rest.get? q = some j := by simpa using hp
      have := ih (k + 1) q v j hq
      have harith : k + 1 + q = k + (q + 1) := by omega
      simp only [List.set, totalCostFrom, this, harith]
      ring

/-- C3: for every `Update` call with `N` live tracks and `M` detections, the
solved assignment over the padded matrix never pairs a row with a real column
(`< M`) whose cost exceeds the distance threshold: the `N` appended no-match
columns priced at the threshold guarantee it.  Stated for an arbitrary real
cost block `c`, which covers the Euclidean block built on lines 150-161. -/
theorem C3_no_real_match_beyond_threshold (N M : ℕ) (c : ℕ → ℕ → ℚ) (thresh : ℚ)
    (i j : ℕ)
    (hget : (linear_sum_assignment N (M + N) (padCost M thresh c)).get? i = some j)
    (hjM : j < M) :
    c i j ≤ thresh := by
  set pc := padCost M thresh c with hpc
  set a := linear_sum_assignment N (M + N) pc with ha
  have hNK : N ≤ M + N := Nat.le_add_left N M
  have hm : isMatching N (M + N) a := isMatching_lsa N (M + N) pc hNK
  by_contra hgt
  push_neg at hgt
  -- there is a free padding column
  have hlen : a.length = N := hm.1
  have hiN : i < N := by
    obtain ⟨hl, -⟩ := List.get?_eq_some.mp hget
    omega
  have hfree : ∃ p, M ≤ p ∧ p < M + N ∧ p ∉ a := by
    by_contra hall
    push_neg at hall
    have hja : j ∈ a := List.get?_mem hget
    have hsub : Finset.Ico M (M + N) ⊆ a.toFinset.erase j := by
      intro p hp
      rcases Finset.mem_Ico.mp hp with ⟨hpM, hpK⟩
      have hpa : p ∈ a := hall p hpM hpK
      have hpj : p ≠ j := by omega
      exact Finset.mem_erase.mpr ⟨hpj, List.mem_toFinset.mpr hpa⟩
    have hcard := Finset.card_le_card hsub
    rw [Nat.card_Ico] at hcard
    have herase : (a.toFinset.erase j).card = a.toFinset.card - 1 :=
      Finset.card_erase_of_mem (List.mem_toFinset.mpr hja)
    have htf : a.toFinset.card = a.length := List.toFinset_card_of_nodup hm.2.2
    omega
  obtain ⟨p, hpM, hpK, hpa⟩ := hfree
  -- the exchanged assignment is strictly cheaper
  have hm' : isMatching N (M + N) (a.set i p) := by
    refine ⟨by simp [hlen], ?_, hm.2.2.set hpa⟩
    intro x hx
    rcases List.mem_or_eq_of_mem_set hx with hx' | rfl
    · exact hm.2.1 x hx'
    · exact hpK
  have hset := totalCostFrom_set pc a 0 i p j hget
  have hmin := lsa_minimal N (M + N) pc hNK (a.set i p) hm'
  rw [← ha] at hmin
  have hpcj : pc i j = c i j := by simp [hpc, padCost, hjM]
  have hpcp : pc i p = thresh := by
    have : ¬ p < M := by omega
    simp [hpc, padCost, this]
  unfold totalCost at hmin
  rw [hset] at hmin
  simp only [Nat.zero_add] at hset hmin
  rw [hpcj, hpcp] at hmin
  linarith

/-- Witness for C3 at a concrete instance: one track, one detection at cost 3,
threshold 5; the solver picks the real column and its cost is within the
threshold. -/
theorem C3_witness :
    (linear_sum_assignment 1 (1 + 1) (padCost 1 5 cEx)).get? 0 = some 0 ∧
    (0 : ℕ) < 1 ∧ cEx 0 0 ≤ 5 :=
  ⟨by decide, by decide,
   C3_no_real_match_beyond_threshold 1 1 cEx 5 0 0 (by decide) (by decide)⟩

/-- C4: the matching computed over the padded `N×(M+N)` matrix (here: any
`N×K` matrix with `N ≤ K`) is a one-to-one pairing of the rows to distinct
columns whose total cost — real pairs at their cost, no-match pairs at the
threshold price — is globally minimal among all such pairings, not merely a
locally greedy choice. -/
theorem C4_solve_globally_optimal (N K : ℕ) (c : ℕ → ℕ → ℚ) (h : N ≤ K) :
    isMatching N K (linear_sum_assignment N K c) ∧
    ∀ a, isMatching N K a →
      totalCost c (linear_sum_assignment N K c) ≤ totalCost c a :=
  ⟨isMatching_lsa N K c h, fun a ha => lsa_minimal N K c h a ha⟩

/-- Witness for C4 at a concrete instance: the solver's choice on the 1×2
matrix `cEx` is a matching and is no more expensive than the pairing `[1]`. -/
theorem C4_witness :
    isMatching 1 2 (linear_sum_assignment 1 2 cEx) ∧
    totalCost cEx (linear_sum_assignment 1 2 cEx) ≤ totalCost cEx [1] :=
  ⟨(C4_solve_globally_optimal 1 2 cEx (by decide)).1,
   (C4_solve_globally_optimal 1 2 cEx (by decide)).2 [1] (by decide)⟩

theorem npSqrt_zero : npSqrt 0 = 0 := by decide

theorem npSqrt_nonneg (q : ℚ) : 0 ≤ npSqrt q :=
  Rat.mkRat_nonneg (Int.natCast_nonneg _) _

theorem dist2_self (p : Pt) : dist2 p p = 0 := by
  simp [dist2]

theorem pyGet_coe_ok {α : Type} (l : List α) (j : ℕ) (h : j < l.length) :
    pyGet l (j : ℤ) = .ok (l.get ⟨j, h⟩) := by
  have h0 : (0 : ℤ) ≤ (j : ℤ) := Int.natCast_nonneg j
  have ht : (j : ℤ).toNat = j := Int.toNat_natCast j
  simp only [pyGet, if_pos h0, ht, List.get?_eq_get h]

theorem pyGet_coe_err {α : Type} (l : List α) (j : ℕ) (h : l.length ≤ j) :
    pyGet l (j : ℤ) = .error .indexError := by
  have h0 : (0 : ℤ) ≤ (j : ℤ) := Int.natCast_nonneg j
  have ht : (j : ℤ).toNat = j := Int.toNat_natCast j
  have : l.get? j = none := List.get?_eq_none.mpr h
  simp only [pyGet, if_pos h0, ht, this]

theorem trimLoop_drop (T : ℕ) (tr : List Pt) (h : tr.length ≤ T + 1) :
    trimLoop T tr = .ok (tr.drop (tr.length - T)) := by
  unfold trimLoop
  by_cases hlt : T < tr.length
  · have hlen : tr.length = T + 1 := by omega
    have h1 : tr.length - T = 1 := by omega
    rw [if_pos hlt, h1]
    cases tr with
    | nil => simp at hlen
    | cons a rest =>
      simp [List.range_succ, pyDelIdx, List.eraseIdx]
  · rw [if_neg hlt]
    have h0 : tr.length - T = 0 := by omega
    rw [h0, List.drop_zero]

theorem traceStage_ok (T : ℕ) (t : Track) (h : t.trace.length ≤ T + 1) :
    traceStage T t =
      .ok { t with trace := t.trace.drop (t.trace.length - T) ++ [t.prediction] } := by
  simp only [traceStage, trimLoop_drop T t.trace h]

theorem classStage_fields (pcs : Option (List String)) (un : List ℕ) (asg : List ℤ)
    (i : ℕ) (t t' : Track) (h : classStage pcs un asg i t = .ok t') :
    t'.trace = t.trace ∧ t'.skipped_frames = t.skipped_frames ∧
    t'.track_id = t.track_id ∧ t'.prediction = t.prediction ∧ t'.KF = t.KF := by
  unfold classStage at h
  repeat' split at h
  all_goals first
    | (cases h; exact ⟨rfl, rfl, rfl, rfl, rfl⟩)
    | exact (Except.noConfusion h)

theorem bboxStage_fields (bbs : Option (List BBox)) (un : List ℕ) (asg : List ℤ)
    (i : ℕ) (t t' : Track) (h : bboxStage bbs un asg i t = .ok t') :
    t'.trace = t.trace ∧ t'.skipped_frames = t.skipped_frames ∧
    t'.track_id = t.track_id ∧ t'.prediction = t.prediction ∧ t'.KF = t.KF ∧
    t'.predicted_class = t.predicted_class := by
  unfold bboxStage at h
  repeat' split at h
  all_goals first
    | (cases h; exact ⟨rfl, rfl, rfl, rfl, rfl, rfl⟩)
    | exact (Except.noConfusion h)

theorem kfMotionStage_trace (dets : List Pt) (asg : List ℤ) (i : ℕ) (t t' : Track)
    (h : kfMotionStage dets asg i t = .ok t') :
    t'.trace = t.trace ∧ t'.track_id = t.track_id := by
  unfold kfMotionStage at h
  repeat' split at h
  all_goals first
    | (cases h; exact ⟨rfl, rfl⟩)
    | exact (Except.noConfusion h)

theorem pureMotionStage_trace (dets : List Pt) (asg : List ℤ) (i : ℕ) (t t' : Track)
    (h : pureMotionStage dets asg i t = .ok t') :
    t'.trace = t.trace ∧ t'.track_id = t.track_id := by
  unfold pureMotionStage at h
  repeat' split at h
  all_goals first
    | (cases h; exact ⟨rfl, rfl⟩)
    | exact (Except.noConfusion h)

theorem trackUpdateStep_trace (cfg : TrackerState) (dets : List Pt)
    (pcs : Option (List String)) (bbs : Option (List BBox))
    (un : List ℕ) (asg : List ℤ) (i : ℕ) (t t' : Track)
    (h : trackUpdateStep cfg dets pcs bbs un asg i t = .ok t')
    (hlen : t.trace.length ≤ cfg.max_trace_length + 1) :
    t'.trace.length ≤ cfg.max_trace_length + 1 := by
  unfold trackUpdateStep at h
  set T := cfg.max_trace_length with hT
  split at h
  · exact (Except.noConfusion h)
  · next t1 h1 =>
    have hf1 := classStage_fields pcs un asg i t t1 h1
    split at h
    · exact (Except.noConfusion h)
    · next t2 h2 =>
      have hf2 := bboxStage_fields bbs un asg i t1 t2 h2
      have hlen2 : t2.trace.length ≤ T + 1 := by
        rw [hf2.1, hf1.1]; exact hlen
      split at h
      · -- Kalman branch
        split at h
        · exact (Except.noConfusion h)
        · next t3 h3 =>
          have hf3 := kfMotionStage_trace dets asg i t2 t3 h3
          have hlen3 : t3.trace.length ≤ T + 1 := by rw [hf3.1]; exact hlen2
          rw [traceStage_ok T t3 hlen3] at h
          cases h
          simp only [List.length_append, List.length_drop, List.length_singleton]
          omega
      · -- pure branch
        split at h
        · exact (Except.noConfusion h)
        · next t3 h3 =>
          have hf3 := pureMotionStage_trace dets asg i t2 t3 h3
          have hlen3 : t3.trace.length ≤ T + 1 := by rw [hf3.1]; exact hlen2
          rw [traceStage_ok T t3 hlen3] at h
          cases h
          simp only [List.length_append, List.length_drop, List.length_singleton]
          omega

theorem bootstrapLoop_mem (cfg : TrackerState) (pcs : Option (List String))
    (bbs : Option (List BBox)) :
    ∀ (rest : List Pt) (i : ℕ) (ts : List Track) (cnt : ℤ) (ts0 : List Track) (cnt0 : ℤ),
      bootstrapLoop cfg pcs bbs i rest ts cnt = .ok (ts0, cnt0) →
      ∀ t ∈ ts0, t ∈ ts ∨ t.trace = [] := by
  intro rest
  induction rest with
  | nil =>
    intro i ts cnt ts0 cnt0 h t ht
    cases h
    exact Or.inl ht
  | cons d drest ih =>
    intro i ts cnt ts0 cnt0 h t ht
    simp only [bootstrapLoop] at h
    split at h
    · exact (Except.noConfusion h)
    · split at h
      · exact (Except.noConfusion h)
      · rcases ih (i + 1) _ _ _ _ h t ht with hmem | htr
        · rcases List.mem_append.mp hmem with hmem' | hmem'
          · exact Or.inl hmem'
          · rcases List.mem_singleton.mp hmem' with rfl
            exact Or.inr rfl
        · exact Or.inr htr

theorem classifyLoop_mem (M : ℕ) :
    ∀ (ts : List Track) (i : ℕ) (asg : List ℤ),
      ∀ t' ∈ (classifyLoop M i ts asg).1,
        ∃ t ∈ ts, t' = t ∨ t' = { t with skipped_frames := t.skipped_frames + 1 } := by
  intro ts
  induction ts with
  | nil => intro i asg t' ht'; simp [classifyLoop] at ht'
  | cons t ts ih =>
    intro i asg t' ht'
    cases asg with
    | nil =>
      simp only [classifyLoop] at ht'
      rcases List.mem_cons.mp ht' with rfl | hm
      · exact ⟨t', List.mem_cons_self _ _, Or.inl rfl⟩
      · exact ⟨t', List.mem_cons_of_mem _ hm, Or.inl rfl⟩
    | cons a asg =>
      simp only [classifyLoop] at ht'
      rcases hrec : classifyLoop M (i + 1) ts asg with ⟨ts', asg', un'⟩
      rw [hrec] at ht'
      by_cases hc : a = -1 ∨ (M : ℤ) ≤ a
      · rw [if_pos hc] at ht'
        rcases List.mem_cons.mp ht' with rfl | hm
        · exact ⟨t, List.mem_cons_self _ _, Or.inr rfl⟩
        · have := ih (i + 1) asg t' (by rw [hrec]; exact hm)
          rcases this with ⟨t0, ht0, hrel⟩
          exact ⟨t0, List.mem_cons_of_mem _ ht0, hrel⟩
      · rw [if_neg hc] at ht'
        rcases List.mem_cons.mp ht' with rfl | hm
        · exact ⟨t', List.mem_cons_self _ _, Or.inl rfl⟩
        · have := ih (i + 1) asg t' (by rw [hrec]; exact hm)
          rcases this with ⟨t0, ht0, hrel⟩
          exact ⟨t0, List.mem_cons_of_mem _ ht0, hrel⟩

theorem classifyLoop_id (M : ℕ) :
    ∀ (ts : List Track) (asg : List ℤ) (i : ℕ),
      ts.length = asg.length →
      (∀ a ∈ asg, ¬(a = -1 ∨ (M : ℤ) ≤ a)) →
      classifyLoop M i ts asg = (ts, asg, []) := by
  intro ts
  induction ts with
  | nil =>
    intro asg i hlen _
    cases asg with
    | nil => rfl
    | cons a asg => simp at hlen
  | cons t ts ih =>
    intro asg i hlen hcond
    cases asg with
    | nil => simp at hlen
    | cons a asg =>
      have hrec := ih asg (i + 1) (by simpa using hlen)
        (fun x hx => hcond x (List.mem_cons_of_mem _ hx))
      have hna := hcond a (List.mem_cons_self _ _)
      simp only [classifyLoop, hrec, if_neg hna]

theorem classifyLoop_all (M : ℕ) :
    ∀ (ts : List Track) (asg : List ℤ) (i : ℕ),
      ts.length = asg.length →
      (∀ a ∈ asg, a = -1 ∨ (M : ℤ) ≤ a) →
      classifyLoop M i ts asg =
        (ts.map (fun t => { t with skipped_frames := t.skipped_frames + 1 }),
         List.replicate ts.length (-1), List.range' i ts.length) := by
  intro ts
  induction ts with
  | nil =>
    intro asg i hlen _
    cases asg with
    | nil => rfl
    | cons a asg => simp at hlen
  | cons t ts ih =>
    intro asg i hlen hcond
    cases asg with
    | nil => simp at hlen
    | cons a asg =>
      have hrec := ih asg (i + 1) (by simpa using hlen)
        (fun x hx => hcond x (List.mem_cons_of_mem _ hx))
      have ha := hcond a (List.mem_cons_self _ _)
      simp only [classifyLoop, hrec, if_pos ha, List.map_cons, List.length_cons,
        List.replicate, List.range']

theorem deletionLoop_mem :
    ∀ (del : List ℕ) (ts : List Track) (asg : List ℤ) (ts2 : List Track) (asg2 : List ℤ),
      deletionLoop del ts asg = .ok (ts2, asg2) → ∀ t ∈ ts2, t ∈ ts := by
  intro del
  induction del with
  | nil =>
    intro ts asg ts2 asg2 h t ht
    cases h
    exact ht
  | cons i rest ih =>
    intro ts asg ts2 asg2 h t ht
    simp only [deletionLoop] at h
    split at h
    · split at h
      · exact (Except.noConfusion h)
      · have := ih _ _ _ _ h t ht
        exact (List.eraseIdx_sublist ts i).mem this
    · exact ih _ _ _ _ h t ht

theorem birthsLoop_mem (cfg : TrackerState) (dets : List Pt)
    (pcs : Option (List String)) (bbs : Option (List BBox)) :
    ∀ (un : List ℕ) (ts : List Track) (asg : List ℤ) (cnt : ℤ)
      (ts3 : List Track) (asg3 : List ℤ) (cnt3 : ℤ),
      birthsLoop cfg dets pcs bbs un ts asg cnt = .ok (ts3, asg3, cnt3) →
      ∀ t ∈ ts3, t ∈ ts ∨ t.trace = [] := by
  intro un
  induction un with
  | nil =>
    intro ts asg cnt ts3 asg3 cnt3 h t ht
    cases h
    exact Or.inl ht
  | cons d rest ih =>
    intro ts asg cnt ts3 asg3 cnt3 h t ht
    simp only [birthsLoop] at h
    split at h
    · exact (Except.noConfusion h)
    · split at h
      · exact (Except.noConfusion h)
      · split at h
        · exact (Except.noConfusion h)
        · split at h
          · exact (Except.noConfusion h)
          · rcases ih _ _ _ _ _ _ h t ht with hmem | htr
            · rcases List.mem_append.mp hmem with hmem' | hmem'
              · exact Or.inl hmem'
              · rcases List.mem_singleton.mp hmem' with rfl
                exact Or.inr rfl
            · exact Or.inr htr
    · split at h
      · exact (Except.noConfusion h)
      · rcases ih _ _ _ _ _ _ h t ht with hmem | htr
        · rcases List.mem_append.mp hmem with hmem' | hmem'
          · exact Or.inl hmem'
          · rcases List.mem_singleton.mp hmem' with rfl
            exact Or.inr rfl
        · exact Or.inr htr

theorem updateLoop_mem (cfg : TrackerState) (dets : List Pt)
    (pcs : Option (List String)) (bbs : Option (List BBox))
    (un del : List ℕ) (asg : List ℤ) :
    ∀ (ts : List Track) (i0 : ℕ) (ts4 : List Track),
      updateLoop cfg dets pcs bbs un del asg i0 ts = .ok ts4 →
      ∀ t' ∈ ts4, t' ∈ ts ∨
        ∃ i t, t ∈ ts ∧ trackUpdateStep cfg dets pcs bbs un asg i t = .ok t' := by
  intro ts
  induction ts with
  | nil =>
    intro i0 ts4 h t' ht'
    cases h
    simp at ht'
  | cons t rest ih =>
    intro i0 ts4 h t' ht'
    simp only [updateLoop] at h
    split at h
    · split at h
      · exact (Except.noConfusion h)
      · next r hrec =>
        cases h
        rcases List.mem_cons.mp ht' with rfl | hm
        · exact Or.inl (List.mem_cons_self _ _)
        · rcases ih (i0 + 1) r hrec t' hm with hmem | ⟨i, t0, ht0, hstep⟩
          · exact Or.inl (List.mem_cons_of_mem _ hmem)
          · exact Or.inr ⟨i, t0, List.mem_cons_of_mem _ ht0, hstep⟩
    · split at h
      · exact (Except.noConfusion h)
      · next t1 hstep =>
        split at h
        · exact (Except.noConfusion h)
        · next r hrec =>
          cases h
          rcases List.mem_cons.mp ht' with rfl | hm
          · exact Or.inr ⟨i0, t, List.mem_cons_self _ _, hstep⟩
          · rcases ih (i0 + 1) r hrec t' hm with hmem | ⟨i, t0, ht0, hstep'⟩
            · exact Or.inl (List.mem_cons_of_mem _ hmem)
            · exact Or.inr ⟨i, t0, List.mem_cons_of_mem _ ht0, hstep'⟩

theorem updateLoop_forall (cfg : TrackerState) (dets : List Pt)
    (pcs : Option (List String)) (bbs : Option (List BBox))
    (un del : List ℕ) (asg : List ℤ) (R : Track → Track → Prop) :
    ∀ (ts : List Track) (i0 : ℕ),
      (∀ k t, ts.get? k = some t → del.contains (i0 + k) = false ∧
        ∃ t', trackUpdateStep cfg dets pcs bbs un asg (i0 + k) t = .ok t' ∧ R t t') →
      ∃ ts', updateLoop cfg dets pcs bbs un del asg i0 ts = .ok ts' ∧
        List.Forall₂ R ts ts' := by
  intro ts
  induction ts with
  | nil => intro i0 _; exact ⟨[], rfl, List.Forall₂.nil⟩
  | cons t rest ih =>
    intro i0 hk
    have h0 := hk 0 t rfl
    rcases h0 with ⟨hdel, t', hstep, hR⟩
    have hrest := ih (i0 + 1) (fun k u hu => by
      have := hk (k + 1) u (by simpa using hu)
      rwa [show i0 + 1 + k = i0 + (k + 1) by omega])
    rcases hrest with ⟨ts', hloop, hf⟩
    refine ⟨t' :: ts', ?_, List.Forall₂.cons hR hf⟩
    unfold updateLoop
    rw [show i0 + 0 = i0 from rfl] at hdel hstep
    rw [hdel]
    simp only [Bool.false_eq_true, if_false, hstep, hloop]

/-- C5 (amended): after any `Update` call the trace length of every live track
is bounded by `max_trace_length + 1` (not `max_trace_length`: the source trims
*before* appending), and trimming is FIFO — on a trace within that bound the
trim loop drops exactly the oldest entries.  The bbox trace is never trimmed;
see the counterexample.  Stated as preservation: if every track satisfies the
bound before a successful `Update`, every track satisfies it after. -/
theorem C5_trace_bound_and_fifo (s : TrackerState) (dets : List Pt)
    (pcs : Option (List String)) (bbs : Option (List BBox)) (s' : TrackerState)
    (hinv : ∀ t ∈ s.tracks, t.trace.length ≤ s.max_trace_length + 1)
    (hup : Tracker.Update s dets pcs bbs = .ok s') :
    (∀ t' ∈ s'.tracks, t'.trace.length ≤ s.max_trace_length + 1) ∧
    (∀ tr : List Pt, tr.length ≤ s.max_trace_length + 1 →
      trimLoop s.max_trace_length tr = .ok (tr.drop (tr.length - s.max_trace_length))) := by
  refine ⟨?_, fun tr htr => trimLoop_drop _ tr htr⟩
  simp only [Tracker.Update] at hup
  split at hup
  · exact (Except.noConfusion hup)
  · next ts0 cnt0 heq =>
    have h0 : ∀ t ∈ ts0, t.trace.length ≤ s.max_trace_length + 1 := by
      by_cases hz : s.tracks.length = 0
      · rw [if_pos hz] at heq
        intro t ht
        rcases bootstrapLoop_mem s pcs bbs dets 0 s.tracks s.trackIdCount ts0 cnt0 heq t ht with
          hm | htr
        · exact hinv t hm
        · rw [htr]; simp
      · rw [if_neg hz] at heq
        cases heq
        exact hinv
    rcases hcl : classifyLoop dets.length 0 ts0
        ((linear_sum_assignment ts0.length (dets.length + ts0.length)
          (padCost dets.length s.dist_thresh (costMatrix ts0 dets))).map Int.ofNat) with
      ⟨ts1, asg1, unassigned⟩
    rw [hcl] at hup
    have h1 : ∀ t ∈ ts1, t.trace.length ≤ s.max_trace_length + 1 := by
      intro t ht
      have := classifyLoop_mem dets.length ts0 0 _ t (by rw [hcl]; exact ht)
      rcases this with ⟨t0, ht0, hrel⟩
      rcases hrel with h' | h'
      · rw [h']; exact h0 t0 ht0
      · rw [h']; simpa using h0 t0 ht0
    split at hup
    · exact (Except.noConfusion hup)
    · next ts2 asg2 hdel =>
      have h2 : ∀ t ∈ ts2, t.trace.length ≤ s.max_trace_length + 1 :=
        fun t ht => h1 t (deletionLoop_mem _ ts1 asg1 ts2 asg2 hdel t ht)
      split at hup
      · exact (Except.noConfusion hup)
      · next ts3 asg3 cnt3 hbirth =>
        have h3 : ∀ t ∈ ts3, t.trace.length ≤ s.max_trace_length + 1 := by
          intro t ht
          rcases birthsLoop_mem s dets pcs bbs _ ts2 asg2 cnt0 ts3 asg3 cnt3 hbirth t ht with
            hm | htr
          · exact h2 t hm
          · rw [htr]; simp
        split at hup
        · exact (Except.noConfusion hup)
        · next ts4 hloop =>
          cases hup
          intro t' ht'
          rcases updateLoop_mem s dets pcs bbs unassigned _ asg3 ts3 0 ts4 hloop t' ht' with
            hm | ⟨i, t, ht, hstep⟩
          · exact h3 t' hm
          · exact trackUpdateStep_trace s dets pcs bbs unassigned asg3 i t t' hstep (h3 t ht)

theorem totalCostFrom_zero_of (c : ℕ → ℕ → ℚ) :
    ∀ (a : List ℕ) (k : ℕ), (∀ p j, a.get? p = some j → c (k + p) j = 0) →
      totalCostFrom c k a = 0 := by
  intro a
  induction a with
  | nil => intro k _; rfl
  | cons j0 rest ih =>
    intro k hz
    have h0 : c k j0 = 0 := by simpa using hz 0 j0 rfl
    have hr : totalCostFrom c (k + 1) rest = 0 := by
      apply ih
      intro p j hp
      have := hz (p + 1) j (by simpa using hp)
      rwa [show k + (p + 1) = k + 1 + p by omega] at this
    simp [totalCostFrom, h0, hr]

theorem mem_of_nodup_bound_length (a : List ℕ) (M : ℕ) (hlen : a.length = M)
    (hb : ∀ x ∈ a, x < M) (hnd : a.Nodup) : ∀ j < M, j ∈ a := by
  intro j hj
  have hsub : a.toFinset ⊆ Finset.range M := fun x hx =>
    Finset.mem_range.mpr (hb x (List.mem_toFinset.mp hx))
  have hcard : (Finset.range M).card ≤ a.toFinset.card := by
    rw [Finset.card_range, List.toFinset_card_of_nodup hnd, hlen]
  have heq := Finset.eq_of_subset_of_card_le hsub hcard
  exact List.mem_toFinset.mp (heq ▸ Finset.mem_range.mpr hj)

theorem delTracksOf_nil (maxSkip : ℕ) (ts : List Track)
    (h : ∀ t ∈ ts, ¬ maxSkip < t.skipped_frames) : delTracksOf maxSkip ts = [] := by
  apply List.filter_eq_nil_iff.mpr
  intro i _
  cases hget : ts.get? i with
  | none => simp [hget]
  | some t =>
    have := h t (List.get?_mem hget)
    simp [hget, this]

theorem forall₂_mem_right {R : Track → Track → Prop} :
    ∀ {ts ts' : List Track}, List.Forall₂ R ts ts' → ∀ b ∈ ts', ∃ a ∈ ts, R a b := by
  intro ts ts' h
  induction h with
  | nil => intro b hb; simp at hb
  | cons hR _ ih =>
    intro b hb
    rcases List.mem_cons.mp hb with rfl | hb'
    · exact ⟨_, List.mem_cons_self _ _, hR⟩
    · rcases ih b hb' with ⟨a, ha, hab⟩
      exact ⟨a, List.mem_cons_of_mem _ ha, hab⟩

theorem forall₂_map_track_id {R : Track → Track → Prop}
    (hid : ∀ a b, R a b → b.track_id = a.track_id) :
    ∀ {ts ts' : List Track}, List.Forall₂ R ts ts' →
      ts'.map Track.track_id = ts.map Track.track_id := by
  intro ts ts' h
  induction h with
  | nil => rfl
  | cons hR _ ih => simp [ih, hid _ _ hR]

theorem bootstrapLoop_ok (cfg : TrackerState) (cs : List String) (bs : List BBox) :
    ∀ (rest : List Pt) (i : ℕ) (ts : List Track) (cnt : ℤ),
      i + rest.length ≤ cs.length → i + rest.length ≤ bs.length →
      ∃ ts0, bootstrapLoop cfg (some cs) (some bs) i rest ts cnt =
          .ok (ts ++ ts0, cnt + rest.length) ∧
        ts0.length = rest.length ∧
        ∀ k t, ts0.get? k = some t →
          t.prediction = rest.getD k (0, 0) ∧ t.track_id = cnt + k ∧
          t.skipped_frames = 0 ∧ t.trace = [] ∧
          (∃ pc, t.predicted_class = some pc) := by
  intro rest
  induction rest with
  | nil =>
    intro i ts cnt _ _
    refine ⟨[], by simp [bootstrapLoop], rfl, ?_⟩
    intro k t hk
    simp at hk
  | cons d drest ih =>
    intro i ts cnt hcs hbs
    have hics : i < cs.length := by simp at hcs; omega
    have hibs : i < bs.length := by simp at hbs; omega
    obtain ⟨ts0', hres, hlen', hprop⟩ :=
      ih (i + 1)
        (ts ++ [Track.init d cnt cfg.dt cfg.u_x cfg.u_y cfg.std_acc
          cfg.y_std_meas cfg.x_std_meas (some (cs.get ⟨i, hics⟩)) (bs.get ⟨i, hibs⟩)])
        (cnt + 1) (by simp at hcs ⊢; omega) (by simp at hbs ⊢; omega)
    refine ⟨Track.init d cnt cfg.dt cfg.u_x cfg.u_y cfg.std_acc
      cfg.y_std_meas cfg.x_std_meas (some (cs.get ⟨i, hics⟩)) (bs.get ⟨i, hibs⟩) :: ts0',
      ?_, by simp [hlen'], ?_⟩
    · simp only [bootstrapLoop, pyGet_coe_ok cs i hics, pyGet_coe_ok bs i hibs]
      rw [hres]
      congr 2
      · simp
      · simp only [List.length_cons]
        push_cast
        ring
    · intro k t hk
      match k, hk with
      | 0, hk =>
        have ht : Track.init d cnt cfg.dt cfg.u_x cfg.u_y cfg.std_acc
            cfg.y_std_meas cfg.x_std_meas (some (cs.get ⟨i, hics⟩)) (bs.get ⟨i, hibs⟩) = t := by
          simpa using hk
        subst ht
        refine ⟨by simp [Track.init], by simp [Track.init], by simp [Track.init],
          by simp [Track.init], ?_⟩
        exact ⟨[cs.get ⟨i, hics⟩], by simp [Track.init]⟩
      | Nat.succ q, hk =>
        have hq : ts0'.get? q = some t := by simpa using hk
        obtain ⟨hpred, hid, hsk, htr, hpc⟩ := hprop q t hq
        refine ⟨by simpa using hpred, ?_, hsk, htr, hpc⟩
        rw [hid]
        push_cast
        ring

theorem trackUpdateStep_matched (cfg : TrackerState) (dets : List Pt) (cs : List String)
    (bsx : List BBox) (asg : List ℤ) (i : ℕ) (t : Track) (j : ℕ)
    (hasg : asg.getD i (-1) = (j : ℤ)) (hjd : j < dets.length) (hjc : j < cs.length)
    (hjb : j < bsx.length) (hpc : ∃ pc, t.predicted_class = some pc) (htr : t.trace = []) :
    ∃ t', trackUpdateStep cfg dets (some cs) (some bsx) [] asg i t = .ok t' ∧
      t'.track_id = t.track_id ∧ t'.skipped_frames = 0 ∧ t'.trace.length = 1 := by
  obtain ⟨pc, hpc⟩ := hpc
  have hcont : List.contains ([] : List ℕ) i = false := rfl
  have hneg : ¬ (((j : ℕ) : ℤ) = -1) := by omega
  have hclass : classStage (some cs) [] asg i t =
      .ok { t with predicted_class := some (pc ++ [cs.get ⟨j, hjc⟩]) } := by
    rw [classStage, hcont]
    simp only [Bool.false_eq_true, if_false, hpc, hasg, pyGet_coe_ok cs j hjc]
  have hbbox : ∀ u : Track, bboxStage (some bsx) [] asg i u =
      .ok { u with bbox_trace := u.bbox_trace ++ [bsx.get ⟨j, hjb⟩] } := by
    intro u
    rw [bboxStage, hcont]
    simp only [anyIsNotNone, Bool.false_eq_true, if_false, hasg, pyGet_coe_ok bsx j hjb]
  rw [trackUpdateStep, hclass]
  simp only [hbbox]
  by_cases hkf : cfg.use_kf
  · rw [if_pos hkf]
    simp only [kfMotionStage, hasg, ne_eq, hneg, not_false_eq_true, if_true,
      pyGet_coe_ok dets j hjd]
    rw [traceStage_ok _ _ (by simp [htr])]
    refine ⟨_, rfl, rfl, rfl, ?_⟩
    simp [htr]
  · rw [if_neg hkf]
    simp only [pureMotionStage, hasg, ne_eq, hneg, not_false_eq_true, if_true,
      pyGet_coe_ok dets j hjd]
    rw [traceStage_ok _ _ (by simp [htr])]
    refine ⟨_, rfl, rfl, rfl, ?_⟩
    simp [htr]

/-- C2 (amended): on a tracker with no live tracks and a non-empty detection
list (classes and boxes index-aligned, positive distance threshold), `Update`
creates one track per detection with consecutive ids from the id counter — but
it does *not* return at that point: it falls through to the cost matrix and
the assignment solve, where every new track is matched to its own detection at
distance zero, so each new track ends the same call with a one-entry trace and
a zero skip counter, and the id counter advances by the number of detections. -/
theorem C2_amended_bootstrap_falls_through (s : TrackerState) (dets : List Pt)
    (cs : List String) (bsx : List BBox)
    (hempty : s.tracks = []) (hne : dets ≠ [])
    (hcs : cs.length = dets.length) (hbs : bsx.length = dets.length)
    (hth : 0 < s.dist_thresh) :
    ∃ s', Tracker.Update s dets (some cs) (some bsx) = .ok s' ∧
      s'.tracks.length = dets.length ∧
      s'.trackIdCount = s.trackIdCount + dets.length ∧
      s'.tracks.map Track.track_id =
        (List.range dets.length).map (fun k : ℕ => s.trackIdCount + (k : ℤ)) ∧
      ∀ t' ∈ s'.tracks, t'.skipped_frames = 0 ∧ t'.trace.length = 1 := by
  obtain ⟨ts0, hboot, hlen0, hprop⟩ :=
    bootstrapLoop_ok s cs bsx dets 0 [] s.trackIdCount
      (by rw [hcs]; omega) (by rw [hbs]; omega)
  simp only [List.nil_append] at hboot
  have htlen : s.tracks.length = 0 := by rw [hempty]; rfl
  have hN : ts0.length = dets.length := hlen0
  -- facts about the padded cost matrix
  have hnn : ∀ i j, 0 ≤ padCost dets.length s.dist_thresh (costMatrix ts0 dets) i j := by
    intro i j
    by_cases hj : j < dets.length
    · simp only [padCost, if_pos hj, costMatrix]
      cases ts0.get? i <;> cases dets.get? j <;> simp [npSqrt_nonneg]
    · simp only [padCost, if_neg hj]
      exact le_of_lt hth
  have hNK : ts0.length ≤ dets.length + ts0.length := Nat.le_add_left _ _
  have hmatch := isMatching_lsa ts0.length (dets.length + ts0.length)
    (padCost dets.length s.dist_thresh (costMatrix ts0 dets)) hNK
  have hdiag : ∀ p jj, (List.range ts0.length).get? p = some jj →
      padCost dets.length s.dist_thresh (costMatrix ts0 dets) (0 + p) jj = 0 := by
    intro p jj hp
    have hpN : p < ts0.length := by
      obtain ⟨hlt, -⟩ := List.get?_eq_some.mp hp
      simpa using hlt
    rw [List.get?_range hpN] at hp
    obtain rfl : p = jj := by simpa using hp
    have hpM : p < dets.length := by omega
    obtain ⟨t, hget⟩ : ∃ t, ts0.get? p = some t := by
      cases hg : ts0.get? p with
      | none => exact absurd (List.get?_eq_none.mp hg) (by omega)
      | some t => exact ⟨t, rfl⟩
    obtain ⟨hpred, -, -, -, -⟩ := hprop p t hget
    have hdets : dets.get? p = some (dets.get ⟨p, hpM⟩) := List.get?_eq_get hpM
    have hgetD : dets.getD p (0, 0) = dets.get ⟨p, hpM⟩ := by
      rw [List.getD_eq_get?, hdets]
      rfl
    simp only [padCost, if_pos hpM, costMatrix, hget, hdets, hpred, hgetD,
      dist2_self, npSqrt_zero, Nat.zero_add]
  have htot0 : totalCost (padCost dets.length s.dist_thresh (costMatrix ts0 dets))
      (linear_sum_assignment ts0.length (dets.length + ts0.length)
        (padCost dets.length s.dist_thresh (costMatrix ts0 dets))) = 0 := by
    have hle := lsa_minimal ts0.length (dets.length + ts0.length)
      (padCost dets.length s.dist_thresh (costMatrix ts0 dets)) hNK
      (List.range ts0.length) (range_isMatching _ _ hNK)
    have hzero : totalCost (padCost dets.length s.dist_thresh (costMatrix ts0 dets))
        (List.range ts0.length) = 0 :=
      totalCostFrom_zero_of _ _ 0 hdiag
    have hge : 0 ≤ totalCost (padCost dets.length s.dist_thresh (costMatrix ts0 dets))
        (linear_sum_assignment ts0.length (dets.length + ts0.length)
          (padCost dets.length s.dist_thresh (costMatrix ts0 dets))) :=
      totalCostFrom_nonneg _ hnn _ 0
    rw [hzero] at hle
    linarith
  have hreal : ∀ p jj,
      (linear_sum_assignment ts0.length (dets.length + ts0.length)
        (padCost dets.length s.dist_thresh (costMatrix ts0 dets))).get? p = some jj →
      jj < dets.length := by
    intro p jj hp
    by_contra hge
    push_neg at hge
    have hz := totalCostFrom_eq_zero _ hnn _ 0 htot0 p jj hp
    rw [show (0 + p) = p by omega] at hz
    rw [padCost, if_neg (by omega : ¬ jj < dets.length)] at hz
    linarith
  have hbound : ∀ x ∈ (linear_sum_assignment ts0.length (dets.length + ts0.length)
      (padCost dets.length s.dist_thresh (costMatrix ts0 dets))), x < dets.length := by
    intro x hx
    obtain ⟨p, hp⟩ := List.mem_iff_get?.mp hx
    exact hreal p x hp
  have hcov : ∀ jj < dets.length, jj ∈ (linear_sum_assignment ts0.length
      (dets.length + ts0.length) (padCost dets.length s.dist_thresh (costMatrix ts0 dets))) :=
    mem_of_nodup_bound_length _ dets.length (by rw [hmatch.1, hN]) hbound hmatch.2.2
  -- classification leaves everything untouched
  have hclassify := classifyLoop_id dets.length ts0
    ((linear_sum_assignment ts0.length (dets.length + ts0.length)
      (padCost dets.length s.dist_thresh (costMatrix ts0 dets))).map Int.ofNat) 0
    (by simp [hmatch.1])
    (by
      intro x hx
      obtain ⟨jj, hjj, rfl⟩ := List.mem_map.mp hx
      have hjM := hbound jj hjj
      rintro (h1 | h2)
      · rw [Int.ofNat_eq_natCast] at h1; omega
      · rw [Int.ofNat_eq_natCast] at h2; omega)
  -- no deletions
  have hdelnil : delTracksOf s.max_frames_to_skip ts0 = [] := by
    apply delTracksOf_nil
    intro t ht
    obtain ⟨p, hp⟩ := List.mem_iff_get?.mp ht
    obtain ⟨-, -, hsk, -, -⟩ := hprop p t hp
    omega
  -- no unassigned detections
  have hunas : unAssignedDetects dets.length
      ((linear_sum_assignment ts0.length (dets.length + ts0.length)
        (padCost dets.length s.dist_thresh (costMatrix ts0 dets))).map Int.ofNat) = [] := by
    apply List.filter_eq_nil_iff.mpr
    intro i hi
    have hiM : i < dets.length := List.mem_range.mp hi
    have hmem : ((i : ℕ) : ℤ) ∈ (linear_sum_assignment ts0.length (dets.length + ts0.length)
        (padCost dets.length s.dist_thresh (costMatrix ts0 dets))).map Int.ofNat :=
      List.mem_map.mpr ⟨i, hcov i hiM, rfl⟩
    simp [List.elem_iff, hmem]
  -- the final per-track loop
  obtain ⟨ts4, hloop, hf⟩ := updateLoop_forall s dets (some cs) (some bsx) [] []
    ((linear_sum_assignment ts0.length (dets.length + ts0.length)
      (padCost dets.length s.dist_thresh (costMatrix ts0 dets))).map Int.ofNat)
    (fun t t' => t'.track_id = t.track_id ∧ t'.skipped_frames = 0 ∧ t'.trace.length = 1)
    ts0 0
    (by
      intro k t hget
      refine ⟨rfl, ?_⟩
      have hkN : k < ts0.length := by
        obtain ⟨hlt, -⟩ := List.get?_eq_some.mp hget
        exact hlt
      obtain ⟨jj, hjj⟩ : ∃ jj, (linear_sum_assignment ts0.length (dets.length + ts0.length)
          (padCost dets.length s.dist_thresh (costMatrix ts0 dets))).get? k = some jj := by
        cases hg : (linear_sum_assignment ts0.length (dets.length + ts0.length)
            (padCost dets.length s.dist_thresh (costMatrix ts0 dets))).get? k with
        | none =>
          have := List.get?_eq_none.mp hg
          rw [hmatch.1] at this
          omega
        | some jj => exact ⟨jj, rfl⟩
      have hjM : jj < dets.length := hreal k jj hjj
      have hgetasg : ((linear_sum_assignment ts0.length (dets.length + ts0.length)
          (padCost dets.length s.dist_thresh (costMatrix ts0 dets))).map Int.ofNat).getD
          (0 + k) (-1) = ((jj : ℕ) : ℤ) := by
        rw [show (0 + k) = k by omega, List.getD_eq_get?, List.get?_map, hjj]
        rfl
      obtain ⟨-, -, -, htr, hpc⟩ := hprop k t hget
      exact trackUpdateStep_matched s dets cs bsx _ (0 + k) t jj hgetasg
        hjM (by rw [hcs]; exact hjM) (by rw [hbs]; exact hjM) hpc htr)
  -- identities of the bootstrapped tracks
  have hids0 : ts0.map Track.track_id =
      (List.range dets.length).map (fun k : ℕ => s.trackIdCount + (k : ℤ)) := by
    apply List.ext_getElem?
    intro n
    rw [List.getElem?_map, List.getElem?_map]
    by_cases hn : n < dets.length
    · obtain ⟨t, hget⟩ : ∃ t, ts0.get? n = some t := by
        cases hg : ts0.get? n with
        | none => exact absurd (List.get?_eq_none.mp hg) (by omega)
        | some t => exact ⟨t, rfl⟩
      have hget2 : ts0[n]? = some t := by rw [← List.get?_eq_getElem?]; exact hget
      rw [hget2, List.getElem?_range hn]
      obtain ⟨-, hid, -, -, -⟩ := hprop n t hget
      simp [hid]
    · have h1 : ts0[n]? = none := by
        rw [← List.get?_eq_getElem?]
        exact List.get?_eq_none.mpr (by omega)
      have h2 : (List.range dets.length)[n]? = none := by
        rw [← List.get?_eq_getElem?]
        exact List.get?_eq_none.mpr (by simpa using hn)
      rw [h1, h2]
      rfl
  have hids4 : ts4.map Track.track_id = ts0.map Track.track_id :=
    forall₂_map_track_id (fun a b h => h.1) hf
  -- assemble
  refine ⟨{ s with tracks := ts4, trackIdCount := s.trackIdCount + dets.length }, ?_, ?_, rfl,
    ?_, ?_⟩
  · have hstep1 : (if s.tracks.length = 0 then
        bootstrapLoop s (some cs) (some bsx) 0 dets s.tracks s.trackIdCount
      else Except.ok (s.tracks, s.trackIdCount)) =
        .ok (ts0, s.trackIdCount + dets.length) := by
      rw [if_pos htlen, hempty]
      exact hboot
    simp only [Tracker.Update, hstep1]
    simp only [hclassify, hdelnil, deletionLoop, hunas, birthsLoop, hloop]
  · show ts4.length = dets.length
    have := hf.length_eq
    omega
  · show ts4.map Track.track_id =
      (List.range dets.length).map (fun k : ℕ => s.trackIdCount + (k : ℤ))
    rw [hids4, hids0]
  · intro t' ht'
    obtain ⟨t, -, hR⟩ := forall₂_mem_right hf t' ht'
    exact ⟨hR.2.1, hR.2.2⟩

theorem bootstrapLoop_short_classes (cfg : TrackerState) (cs : List String) (bs : List BBox) :
    ∀ (rest : List Pt) (i : ℕ) (ts : List Track) (cnt : ℤ),
      i ≤ cs.length → cs.length < i + rest.length → cs.length ≤ bs.length →
      ∃ ts1, bootstrapLoop cfg (some cs) (some bs) i rest ts cnt =
          .error (.indexError, ts1, cnt + ((cs.length - i : ℕ) : ℤ)) ∧
        ts1.length = ts.length + (cs.length - i) := by
  intro rest
  induction rest with
  | nil =>
    intro i ts cnt h1 h2 _
    simp only [List.length_nil, Nat.add_zero] at h2
    exact absurd h1 (by omega)
  | cons d drest ih =>
    intro i ts cnt h1 h2 h3
    by_cases hi : i < cs.length
    · have hib : i < bs.length := by omega
      obtain ⟨ts1, hres, hlen⟩ :=
        ih (i + 1)
          (ts ++ [Track.init d cnt cfg.dt cfg.u_x cfg.u_y cfg.std_acc
            cfg.y_std_meas cfg.x_std_meas (some (cs.get ⟨i, hi⟩)) (bs.get ⟨i, hib⟩)])
          (cnt + 1) (by omega) (by simp only [List.length_cons] at h2 ⊢; omega) h3
      refine ⟨ts1, ?_, by simp only [List.length_append, List.length_singleton] at hlen ⊢; omega⟩
      simp only [bootstrapLoop, pyGet_coe_ok cs i hi, pyGet_coe_ok bs i hib]
      rw [hres,
        show cnt + 1 + ((cs.length - (i + 1) : ℕ) : ℤ) = cnt + ((cs.length - i : ℕ) : ℤ)
          by omega]
    · have hieq : i = cs.length := by omega
      refine ⟨ts, ?_, by omega⟩
      simp only [bootstrapLoop, pyGet_coe_err cs i (by omega)]
      rw [show cs.length - i = 0 by omega]
      simp

/-- C6 (amended): `Update` performs no input-length validation.  With an empty
track set, bounding boxes covering the detections, and `predicted_classes`
strictly shorter than `detections`, the bootstrap loop creates one track per
class entry and then raises a plain `IndexError` when the class index
overruns — after the track list and the id counter have already been mutated.
No input-length-mismatch error exists anywhere in `Update`. -/
theorem C6_amended_no_length_validation (s : TrackerState) (dets : List Pt)
    (cs : List String) (bsx : List BBox)
    (hempty : s.tracks = []) (hshort : cs.length < dets.length)
    (hbs : dets.length ≤ bsx.length) :
    ∃ e, Tracker.Update s dets (some cs) (some bsx) = .error e ∧
      e.err = .indexError ∧ e.tracks.length = cs.length ∧
      e.trackIdCount = s.trackIdCount + cs.length := by
  obtain ⟨ts1, hres, hlen⟩ := bootstrapLoop_short_classes s cs bsx dets 0 [] s.trackIdCount
    (by omega) (by omega) (by omega)
  have htlen : s.tracks.length = 0 := by rw [hempty]; rfl
  have hstep1 : (if s.tracks.length = 0 then
      bootstrapLoop s (some cs) (some bsx) 0 dets s.tracks s.trackIdCount
    else Except.ok (s.tracks, s.trackIdCount)) =
      .error (.indexError, ts1, s.trackIdCount + ((cs.length : ℕ) : ℤ)) := by
    rw [if_pos htlen, hempty, hres]
    simp
  refine ⟨⟨.indexError, ts1, s.trackIdCount + cs.length⟩, ?_, rfl, by simpa using hlen, rfl⟩
  simp only [Tracker.Update, hstep1]

/-- C9 (amended): restoring from a persisted record creates a live track that
carries exactly the persisted id and position, but the id counter is merely
incremented by one — it is *not* advanced past the restored id (the separate
`set_trackIdCount` exists for that), so later auto-generated ids need not
exceed restored ids. -/
theorem C9_amended_restore_increments_counter (s : TrackerState) (prior_id : ℤ)
    (x y : ℚ) (cls : Option String) (bbox : BBox) (hid : prior_id ≠ -1) :
    (Tracker.initialise_from_prior_state s prior_id x y cls bbox).tracks =
      s.tracks ++ [Track.init (x, y) s.trackIdCount s.dt s.u_x s.u_y s.std_acc
        s.y_std_meas s.x_std_meas cls bbox prior_id] ∧
    (Track.init (x, y) s.trackIdCount s.dt s.u_x s.u_y s.std_acc
      s.y_std_meas s.x_std_meas cls bbox prior_id).track_id = prior_id ∧
    (Track.init (x, y) s.trackIdCount s.dt s.u_x s.u_y s.std_acc
      s.y_std_meas s.x_std_meas cls bbox prior_id).prediction = (x, y) ∧
    (Tracker.initialise_from_prior_state s prior_id x y cls bbox).trackIdCount =
      s.trackIdCount + 1 :=
  ⟨rfl, by simp [Track.init, hid], rfl, rfl⟩

theorem updateLoop_boxes_none (cfg : TrackerState) (dets : List Pt) (un : List ℕ)
    (asg : List ℤ) (i0 : ℕ) (t : Track) (rest : List Track) :
    updateLoop cfg dets none none un [] asg i0 (t :: rest) =
      .error (.typeError, t :: rest) := by
  have hstep : trackUpdateStep cfg dets none none un asg i0 t = .error (.typeError, t) := by
    rw [trackUpdateStep]
    simp [classStage, bboxStage, anyIsNotNone]
  have hcont : List.contains ([] : List ℕ) i0 = false := rfl
  simp only [updateLoop, hcont, Bool.false_eq_true, if_false, hstep]

/-- C10 (amended): the optional arguments are not really optional.  With an
empty track set and at least one detection, `predicted_classes = None` (or,
with classes supplied and covering the detections, `bounding_boxes = None`)
makes the bootstrap branch raise `TypeError` by subscripting `None` before any
track is created.  With live tracks, no detections, both optionals `None`, and
no track reaching the deletion threshold in that call, the per-track update
branch raises `TypeError` by evaluating `any(bounding_boxes)` (the loop then
runs on every track).  When the deletion pass does remove tracks the raise is
not guaranteed: the final loop skips the stale pre-deletion `del_tracks`
indices, so a call that deletes every track — and even one whose surviving
track shifts onto such a stale index — completes without any error; see the
counterexample. -/
theorem C10_amended_optionals_required :
    (∀ (s : TrackerState) (d : Pt) (ds : List Pt) (bbs : Option (List BBox)),
      s.tracks = [] →
      Tracker.Update s (d :: ds) none bbs = .error ⟨.typeError, [], s.trackIdCount⟩) ∧
    (∀ (s : TrackerState) (d : Pt) (ds : List Pt) (cs : List String),
      s.tracks = [] → 0 < cs.length →
      Tracker.Update s (d :: ds) (some cs) none =
        .error ⟨.typeError, [], s.trackIdCount⟩) ∧
    (∀ s : TrackerState,
      s.tracks ≠ [] → (∀ t ∈ s.tracks, t.skipped_frames + 1 ≤ s.max_frames_to_skip) →
      ∃ r, Tracker.Update s [] none none = .error r ∧ r.err = .typeError) := by
  refine ⟨?_, ?_, ?_⟩
  · intro s d ds bbs hempty
    have htlen : s.tracks.length = 0 := by rw [hempty]; rfl
    have hb : bootstrapLoop s none bbs 0 (d :: ds) [] s.trackIdCount =
        .error (.typeError, [], s.trackIdCount) := by
      simp [bootstrapLoop]
    have hstep1 : (if s.tracks.length = 0 then
        bootstrapLoop s none bbs 0 (d :: ds) s.tracks s.trackIdCount
      else Except.ok (s.tracks, s.trackIdCount)) =
        .error (.typeError, [], s.trackIdCount) := by
      rw [if_pos htlen, hempty]
      exact hb
    simp only [Tracker.Update, hstep1]
  · intro s d ds cs hempty hcs
    have htlen : s.tracks.length = 0 := by rw [hempty]; rfl
    have hb : bootstrapLoop s (some cs) none 0 (d :: ds) [] s.trackIdCount =
        .error (.typeError, [], s.trackIdCount) := by
      have h0 : pyGet cs (0 : ℤ) = Except.ok (cs.get ⟨0, hcs⟩) := pyGet_coe_ok cs 0 hcs
      simp [bootstrapLoop, h0]
    have hstep1 : (if s.tracks.length = 0 then
        bootstrapLoop s (some cs) none 0 (d :: ds) s.tracks s.trackIdCount
      else Except.ok (s.tracks, s.trackIdCount)) =
        .error (.typeError, [], s.trackIdCount) := by
      rw [if_pos htlen, hempty]
      exact hb
    simp only [Tracker.Update, hstep1]
  · intro s hne hskip
    obtain ⟨t0, rest, hts⟩ : ∃ t0 rest, s.tracks = t0 :: rest := by
      cases hc : s.tracks with
      | nil => exact absurd hc hne
      | cons a l => exact ⟨a, l, rfl⟩
    have htlen : ¬ s.tracks.length = 0 := by rw [hts]; simp
    have hmx := isMatching_lsa s.tracks.length ((0 : ℕ) + s.tracks.length)
      (padCost 0 s.dist_thresh (costMatrix s.tracks [])) (Nat.le_add_left _ _)
    have hall : ∀ x ∈ (linear_sum_assignment s.tracks.length ((0 : ℕ) + s.tracks.length)
        (padCost 0 s.dist_thresh (costMatrix s.tracks []))).map Int.ofNat,
        x = -1 ∨ ((0 : ℕ) : ℤ) ≤ x := by
      intro x hx
      obtain ⟨j, -, rfl⟩ := List.mem_map.mp hx
      right
      rw [Int.ofNat_eq_natCast]
      omega
    have hclass := classifyLoop_all 0 s.tracks
      ((linear_sum_assignment s.tracks.length ((0 : ℕ) + s.tracks.length)
        (padCost 0 s.dist_thresh (costMatrix s.tracks []))).map Int.ofNat) 0
      (by rw [List.length_map, hmx.1]) hall
    have hdel : delTracksOf s.max_frames_to_skip
        (s.tracks.map (fun t => { t with skipped_frames := t.skipped_frames + 1 })) = [] := by
      apply delTracksOf_nil
      intro t ht
      obtain ⟨t0', ht0', rfl⟩ := List.mem_map.mp ht
      have := hskip t0' ht0'
      simp only [not_lt]
      omega
    have hbump : s.tracks.map (fun t => { t with skipped_frames := t.skipped_frames + 1 }) =
        { t0 with skipped_frames := t0.skipped_frames + 1 } ::
          rest.map (fun t => { t with skipped_frames := t.skipped_frames + 1 }) := by
      rw [hts, List.map_cons]
    refine ⟨⟨.typeError,
      s.tracks.map (fun t => { t with skipped_frames := t.skipped_frames + 1 }),
      s.trackIdCount⟩, ?_, rfl⟩
    have hstep1 : (if s.tracks.length = 0 then
        bootstrapLoop s none none 0 [] s.tracks s.trackIdCount
      else Except.ok (s.tracks, s.trackIdCount)) = .ok (s.tracks, s.trackIdCount) :=
      if_neg htlen
    simp only [Tracker.Update, hstep1, List.length_nil, hclass, hdel, deletionLoop]
    have hunas : unAssignedDetects 0 (List.replicate s.tracks.length (-1)) = [] := rfl
    simp only [hunas, birthsLoop]
    rw [hbump, updateLoop_boxes_none, ← hbump]

/-- C1: the deletion pass does *not* delete against stable identities.  In run
B the tracker enters the frame with tracks (id 0, counter 1), (id 1, counter 1)
and (id 2, counter 0, matched to the only detection); the frame pushes tracks 0
and 1 over `max_frames_to_skip = 1`, so `del_tracks = [0, 1]`.  Deleting those
raw positions against the shrinking list removes tracks 0 and *2*: the matched
track id 2 is destroyed, while track id 1 — whose counter 2 exceeds the
threshold — survives the call (a fresh track id 3 is then spawned on the now
orphaned detection). -/
theorem C1_deletion_shifts_positional_indices :
    sB2.tracks.map (fun t => (t.track_id, t.skipped_frames)) = [(0, 1), (1, 1), (2, 0)] ∧
    sB2.max_frames_to_skip = 1 ∧
    (Tracker.Update sB2 [(200, 0)] (some ["c"]) (some [bx])).map
      (fun st => st.tracks.map (fun t => (t.track_id, t.skipped_frames))) =
      .ok [(1, 2), (3, 0)] :=
  ⟨by decide, by decide, by decide⟩

/-- C7: a surviving track's skip counter is *not* always reset on a real match.
In run A the tracker enters the frame with (id 0, counter 1) at (0,0) and
(id 1, counter 1) at (100,0); the only detection (100,0) matches track 1 while
track 0 is pushed over the threshold and deleted.  After the deletion the
update loop skips post-deletion index 0 — which now holds the matched track
id 1 — because 0 is in the stale `del_tracks` list, so id 1 ends the frame
matched but with counter still 1: neither reset to 0 nor incremented to 2. -/
theorem C7_skip_counter_not_reset_on_match :
    sA2.tracks.map (fun t => (t.track_id, t.skipped_frames)) = [(0, 1), (1, 1)] ∧
    (Tracker.Update sA2 [(100, 0)] (some ["a"]) (some [bx])).map
      (fun st => st.tracks.map (fun t => (t.track_id, t.skipped_frames))) =
      .ok [(1, 1)] :=
  ⟨by decide, by decide⟩

/-- C8: a track can be removed on a frame where its counter never exceeded the
threshold.  In run B track id 2 enters the frame with counter 0 and is matched
by the only detection, yet the deletion pass (aimed at over-threshold tracks 0
and 1) removes positions 0 and 1 of the shrinking list, destroying id 2; the
over-threshold id 1 survives. -/
theorem C8_track_removed_before_threshold :
    (∃ t ∈ sB2.tracks, t.track_id = 2 ∧ t.skipped_frames = 0) ∧
    (Tracker.Update sB2 [(200, 0)] (some ["c"]) (some [bx])).map
      (fun st => st.tracks.map Track.track_id) = .ok [1, 3] :=
  ⟨by decide, by decide⟩

/-- C2 counterexample: on the spec's own scenario (no tracks, detections
(0,0) and (10,10)) `Update` does not return after the bootstrap: its result
differs from the bootstrap-only semantics `specBootstrapUpdate`, and each
just-created track already carries one trace entry appended by the per-track
update loop that runs after the assignment solve. -/
theorem C2_counterexample_no_early_return :
    Tracker.Update cfgA [(0, 0), (10, 10)] (some ["a", "a"]) (some [bx, bx]) ≠
      specBootstrapUpdate cfgA [(0, 0), (10, 10)] (some ["a", "a"]) (some [bx, bx]) ∧
    (Tracker.Update cfgA [(0, 0), (10, 10)] (some ["a", "a"]) (some [bx, bx])).map
      (fun st => st.tracks.map (fun t => t.trace.length)) = .ok [1, 1] :=
  ⟨by decide, by decide⟩

/-- C2 witness: the amended statement evaluated on a concrete bootstrap call
with two detections. -/
theorem C2_witness :
    ∃ s', Tracker.Update cfgA [(0, 0), (3, 4)] (some ["a", "b"]) (some [bx, bx]) = .ok s' ∧
      s'.tracks.length = ([(0, 0), (3, 4)] : List Pt).length ∧
      s'.trackIdCount = cfgA.trackIdCount + ([(0, 0), (3, 4)] : List Pt).length ∧
      s'.tracks.map Track.track_id =
        (List.range ([(0, 0), (3, 4)] : List Pt).length).map
          (fun k : ℕ => cfgA.trackIdCount + (k : ℤ)) ∧
      ∀ t' ∈ s'.tracks, t'.skipped_frames = 0 ∧ t'.trace.length = 1 :=
  C2_amended_bootstrap_falls_through cfgA [(0, 0), (3, 4)] ["a", "b"] [bx, bx]
    rfl (by decide) (by decide) (by decide) (by decide)

/-- C5 counterexample: with `max_trace_length = 1`, three one-detection frames
leave the single track with a trace of length 2 (the trim runs before the
append) and a bbox trace of length 4 (the bbox trace is never trimmed) — both
exceed the configured bound. -/
theorem C5_counterexample_trace_exceeds_bound :
    cfgT.max_trace_length = 1 ∧
    sT3.tracks.map (fun t => (t.trace.length, t.bbox_trace.length)) = [(2, 4)] :=
  ⟨by decide, by decide⟩

/-- C5 witness: the amended bound evaluated across a concrete bootstrap frame. -/
theorem C5_witness :
    (∀ t ∈ cfgA.tracks, t.trace.length ≤ cfgA.max_trace_length + 1) ∧
    (∀ t' ∈ sA1.tracks, t'.trace.length ≤ cfgA.max_trace_length + 1) :=
  ⟨by decide,
   (C5_trace_bound_and_fifo cfgA [(0, 0), (100, 0)] (some ["a", "a"]) (some [bx, bx]) sA1
     (by decide) (by decide)).1⟩

/-- C6 counterexample: with two detections but only one class label, `Update`
does not fail fast with an input-length-mismatch error before mutating state —
it creates the first track (carried inside the raised state, id counter already
advanced to 1) and then raises a plain `IndexError`. -/
theorem C6_counterexample_mutation_before_index_error :
    Tracker.Update cfgA [(0, 0), (3, 4)] (some ["a"]) (some [bx, bx]) =
      .error ⟨.indexError, [Track.init (0, 0) 0 1 0 0 5 1 1 (some "a") bx], 1⟩ ∧
    PyErr.indexError ≠ PyErr.lengthMismatch :=
  ⟨by decide, by decide⟩

/-- C6 witness: the amended statement evaluated at the same concrete call. -/
theorem C6_witness :
    ∃ e, Tracker.Update cfgA [(0, 0), (3, 4)] (some ["a"]) (some [bx, bx]) = .error e ∧
      e.err = .indexError ∧ e.tracks.length = (["a"] : List String).length ∧
      e.trackIdCount = cfgA.trackIdCount + (["a"] : List String).length :=
  C6_amended_no_length_validation cfgA [(0, 0), (3, 4)] ["a"] [bx, bx]
    rfl (by decide) (by decide)

/-- C9 counterexample: restoring id 41 into a tracker whose counter is 0 sets
the counter to 1, not past 41; the next auto-generated track (spawned by an
unmatched detection) gets id 1 < 41, refuting "every subsequently
auto-generated id exceeds all restored ids". -/
theorem C9_counterexample_counter_not_advanced_past :
    sR.trackIdCount = 1 ∧
    sR.tracks.map Track.track_id = [41] ∧
    (Tracker.Update sR [(1000, 0)] (some ["a"]) (some [bx])).map
      (fun st => st.tracks.map Track.track_id) = .ok [41, 1] ∧
    (1 : ℤ) < 41 :=
  ⟨by decide, by decide, by decide, by decide⟩

/-- C9 witness: the amended statement evaluated on the restore of id 41. -/
theorem C9_witness :
    (Tracker.initialise_from_prior_state { cfgA with max_frames_to_skip := 3 }
        41 0 0 (some "c") bx).tracks =
      { cfgA with max_frames_to_skip := 3 }.tracks ++
        [Track.init (0, 0) { cfgA with max_frames_to_skip := 3 }.trackIdCount
          1 0 0 5 1 1 (some "c") bx 41] ∧
    (Track.init (0, 0) { cfgA with max_frames_to_skip := 3 }.trackIdCount
      1 0 0 5 1 1 (some "c") bx 41).track_id = 41 ∧
    (Track.init (0, 0) { cfgA with max_frames_to_skip := 3 }.trackIdCount
      1 0 0 5 1 1 (some "c") bx 41).prediction = (0, 0) ∧
    (Tracker.initialise_from_prior_state { cfgA with max_frames_to_skip := 3 }
        41 0 0 (some "c") bx).trackIdCount =
      { cfgA with max_frames_to_skip := 3 }.trackIdCount + 1 :=
  C9_amended_restore_increments_counter { cfgA with max_frames_to_skip := 3 }
    41 0 0 (some "c") bx (by decide)

/-- C10 counterexample: two calls with live tracks and both optional arguments
`None` that complete *without* any `TypeError`.  In the first, the single
track (counter 0, threshold 0) is deleted inside the call and the per-track
loop body never runs.  In the second, track id 0 (counter 1, threshold 1) is
deleted, the surviving track id 1 shifts to index 0 — a stale `del_tracks`
entry — and the final loop skips it, so `Update` returns normally even though
a track survives the deletion pass. -/
theorem C10_counterexample_no_type_error :
    (sC.tracks ≠ [] ∧
      Tracker.Update sC [] none none = .ok (Tracker.clear_tracks sC)) ∧
    (sD.tracks.map (fun t => (t.track_id, t.skipped_frames)) = [(0, 1), (1, 0)] ∧
      sD.max_frames_to_skip = 1 ∧
      (Tracker.Update sD [] none none).map
        (fun st => st.tracks.map (fun t => (t.track_id, t.skipped_frames))) =
        .ok [(1, 1)]) :=
  ⟨⟨by decide, by decide⟩, by decide, by decide, by decide⟩

/-- C10 witness: the three amended conjuncts evaluated at concrete calls. -/
theorem C10_witness :
    Tracker.Update cfgA [(0, 0)] none (some [bx]) =
      .error ⟨.typeError, [], cfgA.trackIdCount⟩ ∧
    Tracker.Update cfgA [(0, 0)] (some ["a"]) none =
      .error ⟨.typeError, [], cfgA.trackIdCount⟩ ∧
    ∃ r, Tracker.Update sA1 [] none none = .error r ∧ r.err = .typeError :=
  ⟨C10_amended_optionals_required.1 cfgA (0, 0) [] (some [bx]) rfl,
   C10_amended_optionals_required.2.1 cfgA (0, 0) [] ["a"] rfl (by decide),
   C10_amended_optionals_required.2.2 sA1 (by decide) (by decide)⟩

end OmniTrax
